import Mathlib

/-!
Verification development for the downmark adaptive retrieval and rendering
pipeline.  The TypeScript sources are shallowly embedded: strings are lists
of characters, the WHATWG `URL` platform capability is modelled by a small
parser for absolute http(s) URLs, the DOM capability is modelled by an
abstract list of elements with attribute maps, and effectful steps (network
fetches, the browser session, the AI call, the pandoc service) are passed in
as explicit outcome environments.
-/

/-- Strings are modelled as lists of characters. -/
abbrev Str : Type := List Char

/-- Literal helper: the character list of a Lean string literal. -/
def str (s : String) : Str := s.data

/-- JavaScript whitespace test, restricted to the ASCII whitespace characters
that occur in this code base (space, tab, newline, carriage return). -/
def isWs (c : Char) : Bool := c = ' ' || c = '\t' || c = '\n' || c = '\r'

/-- Model of `String.prototype.toLowerCase`, restricted to ASCII case mapping. -/
def jsToLower (s : Str) : Str := s.map Char.toLower

/-- Does `s` start with `p`?  Model of `String.prototype.startsWith`. -/
def strStartsWith : Str → Str → Bool
  | _, [] => true
  | [], _ :: _ => false
  | c :: s, d :: p => c = d && strStartsWith s p

/-- Does `s` end with `p`?  Model of `String.prototype.endsWith`. -/
def strEndsWith (s p : Str) : Bool :=
  strStartsWith (List.reverse s) (List.reverse p)

/-- Does `s` contain `p` as a substring?  Model of `String.prototype.includes`. -/
def strContainsSub : Str → Str → Bool
  | [], p => strStartsWith [] p
  | c :: s, p => strStartsWith (c :: s) p || strContainsSub s p

/-- Model of `String.prototype.trim` (leading and trailing whitespace removed). -/
def jsTrim (s : Str) : Str :=
  ((s.dropWhile isWs).reverse.dropWhile isWs).reverse

/-- Model of `String.prototype.split` on a single separator character: every
occurrence splits, empty pieces are kept (as in JavaScript). -/
def splitOnChar (c : Char) : Str → List Str
  | [] => [[]]
  | x :: xs =>
    match splitOnChar c xs with
    | [] => [[]]
    | y :: ys => if x = c then [] :: y :: ys else (x :: y) :: ys

/-- Model of `Array.prototype.join` with a separator string. -/
def joinSep (sep : Str) : List Str → Str
  | [] => []
  | [x] => x
  | x :: y :: ys => x ++ sep ++ joinSep sep (y :: ys)

/-- Tokens of a string split on runs of whitespace (model of
`split(/\s+/)` applied to an already-trimmed string): whitespace characters
are first canonicalised to a space, then the string is split on spaces and
empty pieces are dropped. -/
def wsSplit (s : Str) : List Str :=
  (splitOnChar ' ' (s.map (fun c => if isWs c then ' ' else c))).filter
    (fun t => !List.isEmpty t)

/-- Model of `split(/\s+/)` as used on trimmed `srcset` candidate strings: JavaScript
returns `[""]` for the empty string, and the whitespace-run tokens
otherwise. -/
def splitWsJs (s : Str) : List Str :=
  if List.isEmpty s then [[]] else wsSplit s

/-!  ## URL model

The WHATWG `new URL` platform capability, modelled for absolute http(s)
URLs without userinfo, port, percent-encoding or dot-segment
normalisation: scheme, host (characters up to `/`, `?` or `#`), path
(defaulting to `/`), and the raw query/fragment tail.  Hostname case
normalisation is elided — every use site in the source lowercases the
hostname again explicitly. -/

structure URLParts where
  scheme : Str
  hostname : Str
  pathname : Str
  search : Str
deriving DecidableEq

/-- A character that may appear in the host component. -/
def hostChar (c : Char) : Bool := !(c = '/' || c = '?' || c = '#')

/-- A character that may appear in the path component. -/
def pathChar (c : Char) : Bool := !(c = '?' || c = '#')

/-- Shared tail of URL parsing once the scheme has been recognised. -/
def parseAfterScheme (scheme rest : Str) : Option URLParts :=
  let host := rest.takeWhile hostChar
  if List.isEmpty host then none
  else
    let after := rest.drop host.length
    let path := after.takeWhile pathChar
    let search := after.drop path.length
    some { scheme := scheme
           hostname := host
           pathname := if List.isEmpty path then str "/" else path
           search := search }

/-- Model of `new URL(url)`: `none` models the thrown `TypeError` on an
unparsable URL. -/
def parseURL (url : Str) : Option URLParts :=
  if strStartsWith url (str "http://") then
    parseAfterScheme (str "http") (url.drop 7)
  else if strStartsWith url (str "https://") then
    parseAfterScheme (str "https") (url.drop 8)
  else none

/-- Model of the `href` serialisation of a parsed URL. -/
def serializeURL (u : URLParts) : Str :=
  u.scheme ++ str "://" ++ u.hostname ++ u.pathname ++ u.search

/-!  ## Pattern matcher (src/renderer-registry.ts, matchesPattern) -/

/-- Body of `matchesPattern` once the candidate URL has parsed: wildcard
`*`; hostname+path patterns (exact, or prefix when the pattern ends with
`/*`); hostname patterns (exact, `*.suffix`, `prefix.*`). -/
def matchesPatternParsed (parsedUrl : URLParts) (pat : Str) : Bool :=
  let hostname := jsToLower parsedUrl.hostname
  let pathname := jsToLower parsedUrl.pathname
  let fullPath := hostname ++ pathname
  if pat = str "*" then true
  else if strContainsSub pat (str "/") then
    let patternLower := jsToLower pat
    if fullPath = patternLower then true
    else if strEndsWith patternLower (str "/*") then
      strStartsWith fullPath (patternLower.dropLast.dropLast)
    else false
  else if hostname = jsToLower pat then true
  else if strStartsWith pat (str "*.") then
    strEndsWith hostname (jsToLower (pat.drop 1))
  else if strEndsWith pat (str ".*") then
    (splitOnChar '.' hostname).headD [] = jsToLower (pat.dropLast.dropLast)
  else false

/-- Full `matchesPattern(url, pattern)` from `src/renderer-registry.ts`: a URL
parse failure matches nothing (the `try`/`catch` default). -/
def matchesPattern (url pat : Str) : Bool :=
  match parseURL url with
  | none => false
  | some parsedUrl => matchesPatternParsed parsedUrl pat

/-!  ## Renderer registry (src/renderer-registry.ts) -/

/-- The registered data of a renderer (`name`, `patterns`, `priority`); the
`process`/`format` capabilities play no role in registration or
selection. -/
structure Renderer where
  name : Str
  patterns : List Str
  priority : Int
deriving DecidableEq

structure Registry where
  renderers : List Renderer
  defaultRenderer : Renderer
deriving DecidableEq

/-- Stable insertion of a newly registered renderer after every existing
renderer of greater or equal priority. -/
def insertLate (r : Renderer) : List Renderer → List Renderer
  | [] => [r]
  | x :: xs => if r.priority ≤ x.priority then x :: insertLate r xs else r :: x :: xs

/-- The observable behaviour of `Array.prototype.sort` with comparator
`(b.priority || 0) - (a.priority || 0)`: a stable sort by descending
priority. -/
def stableSortDesc (rs : List Renderer) : List Renderer :=
  rs.foldl (fun acc r => insertLate r acc) []

/-- Model of `RendererRegistry.register`: push the renderer, then re-sort by
descending priority (stably, as guaranteed for `Array.prototype.sort`). -/
def register (s : Registry) (r : Renderer) : Registry :=
  { s with renderers := stableSortDesc (s.renderers ++ [r]) }

/-- Inner loop of `selectRenderer`: iterate the declared patterns in
declaration order, returning at the first match. -/
def anyPatternMatches (url : Str) : List Str → Bool
  | [] => false
  | p :: ps => if matchesPattern url p then true else anyPatternMatches url ps

/-- Outer loop of `selectRenderer`: iterate renderers in registry order,
returning the first renderer one of whose patterns matches. -/
def findFirstRenderer (url : Str) : List Renderer → Option Renderer
  | [] => none
  | r :: rs =>
    if anyPatternMatches url r.patterns then some r else findFirstRenderer url rs

/-- Model of `RendererRegistry.selectRenderer`: first matching registered renderer,
else the default (fallback) renderer. -/
def selectRenderer (s : Registry) (url : Str) : Renderer :=
  match findFirstRenderer url s.renderers with
  | some r => r
  | none => s.defaultRenderer

/-- Descriptor of `WikipediaRenderer`. -/
def wikipediaRenderer : Renderer :=
  { name := str "wikipedia"
    patterns := [str "*.wikipedia.org", str "wikipedia.org"]
    priority := 10 }

/-- Descriptor of `ArxivRenderer`. -/
def arxivRenderer : Renderer :=
  { name := str "arxiv"
    patterns := [str "arxiv.org/html/*", str "arxiv.org/abs/*"]
    priority := 10 }

/-- Descriptor of `AIRenderer` (no automatic patterns, highest priority). -/
def aiRendererDescriptor : Renderer :=
  { name := str "ai", patterns := [], priority := 100 }

/-- Descriptor of `DefaultRenderer`, the mandatory fallback. -/
def defaultRendererDescriptor : Renderer :=
  { name := str "default", patterns := [str "*"], priority := -1 }

/-- The registry as constructed by `new RendererRegistry()`. -/
def initialRegistry : Registry :=
  { renderers := [], defaultRenderer := defaultRendererDescriptor }

/-- Registration of a whole list of renderers in order. -/
def registerAll (regs : List Renderer) : Registry :=
  regs.foldl register initialRegistry

/-- The registry after `discoverRenderers()` (wikipedia, arxiv, ai in
registration order). -/
def discoveredRegistry : Registry :=
  registerAll [wikipediaRenderer, arxivRenderer, aiRendererDescriptor]

/-!  ## Adaptive fetcher (src/smart-fetch.ts) -/

/-- The `JS_REQUIRED_DOMAINS` list from the smart fetcher. -/
def JS_REQUIRED_DOMAINS : List Str :=
  [str "twitter.com", str "x.com", str "instagram.com", str "facebook.com",
   str "linkedin.com", str "reddit.com", str "medium.com", str "substack.com",
   str "github.com"]

/-- Model of `requiresJavaScript(url)`: the lowercased hostname contains one of the
known JS-required domains; a URL parse failure yields `false`. -/
def requiresJavaScript (url : Str) : Bool :=
  match parseURL url with
  | none => false
  | some u =>
    JS_REQUIRED_DOMAINS.any (fun domain => strContainsSub (jsToLower u.hostname) domain)

/-- The fixed JS-gating indicator substrings of `detectJsRequired`. -/
def jsIndicators : List Str :=
  [str "enable javascript", str "javascript is required",
   str "javascript disabled", str "noscript", str "please enable javascript",
   str "this page requires javascript"]

/-- Model of `detectJsRequired(html)`: some indicator occurs in the lowercased
markup. -/
def detectJsRequired (html : Str) : Bool :=
  let lowercaseHtml := jsToLower html
  jsIndicators.any (fun indicator => strContainsSub lowercaseHtml indicator)

/-- An HTTP response as observed by `fetchWithHttp`: status information, the
declared content type header (absent modelled by `none`) and the body
text. -/
structure HttpResponse where
  ok : Bool
  status : Nat
  statusText : Str
  contentType : Option Str
  body : Str
deriving DecidableEq

/-- The two failure modes of `fetchWithHttp`: a non-2xx status, or a
declared content type that does not indicate HTML. -/
inductive HttpFetchError where
  | httpStatus (status : Nat) (statusText : Str)
  | nonHtml (contentType : Str)
deriving DecidableEq

/-- Model of `fetchWithHttp`, given the response the network produced: reject non-OK
statuses, read the body, then reject responses whose content type header
does not contain `text/html`. -/
def fetchWithHttp (response : HttpResponse) : Except HttpFetchError Str :=
  if !response.ok then .error (.httpStatus response.status response.statusText)
  else
    let html := response.body
    let contentType := response.contentType.getD []
    if !strContainsSub contentType (str "text/html") then
      .error (.nonHtml contentType)
    else .ok html

/-- Fetch method tag of a `FetchResult`. -/
inductive FetchMethod where
  | fetch
  | chrome
deriving DecidableEq

/-- The page data produced by the browser session (`getPageData`). -/
structure PageD where
  html : Str
  metadata : List (Str × Str)
deriving DecidableEq

/-- The `FetchResult` record as returned by `smartFetch`. -/
structure FetchResultM where
  html : Str
  method : FetchMethod
  url : Str
  metadata : Option (List (Str × Str))
deriving DecidableEq

/-- Environment of external effects for one `smartFetch(url)` call: the
outcome the lightweight HTTP path would produce (the result of
`fetchWithHttp(url)`), the outcome the browser path would produce
(`getPageData(url)`), and the regex-based `extractMetadataFromHtml`, treated
as an opaque pure function since no claim concerns its content. -/
structure SmartFetchEnv where
  http : Except Str Str
  browser : Except Str PageD
  extractMetadataFromHtml : Str → List (Str × Str)

/-- Which of the two fetch paths were attempted during a `smartFetch`
call. -/
structure FetchTrace where
  httpAttempted : Bool
  browserAttempted : Bool
deriving DecidableEq

/-- Shared browser-path tail of `smartFetch`: fold `getPageData` into a
chrome-method `FetchResult`, propagating a browser failure. -/
def browserFetchOutcome (env : SmartFetchEnv) (url : Str) : Except Str FetchResultM :=
  match env.browser with
  | .ok pageData =>
    .ok { html := pageData.html, method := .chrome, url := url,
          metadata := some pageData.metadata }
  | .error e => .error e

/-- Model of `smartFetch(url, {forceBrowser, extractMetadata})` with an explicit
trace of the attempted paths.  The catch block around the lightweight
attempt re-enters the browser path (with the same outcome in this
deterministic model). -/
def smartFetch (env : SmartFetchEnv) (url : Str)
    (forceBrowser extractMetadata : Bool) :
    Except Str FetchResultM × FetchTrace :=
  if forceBrowser then
    (browserFetchOutcome env url,
     { httpAttempted := false, browserAttempted := true })
  else if requiresJavaScript url then
    (browserFetchOutcome env url,
     { httpAttempted := false, browserAttempted := true })
  else
    match env.http with
    | .ok html =>
      if detectJsRequired html then
        (browserFetchOutcome env url,
         { httpAttempted := true, browserAttempted := true })
      else
        (.ok { html := html, method := .fetch, url := url,
               metadata := if extractMetadata
                 then some (env.extractMetadataFromHtml html) else none },
         { httpAttempted := true, browserAttempted := false })
    | .error _ =>
      (browserFetchOutcome env url,
       { httpAttempted := true, browserAttempted := true })

/-!  ## CSS scoping (server.tsx, scopeSelector / scopedCSS) -/

/-- The opening brace character. -/
def lbrace : Char := Char.ofNat 123

/-- Replacement step for the regex `^(html|body|:root)(\s|$|,)`: if the
trimmed selector starts with the token followed by whitespace, end of
string, or a comma, return the remainder after the token (the boundary
character is kept by the `$2` back-reference). -/
def stripGlobalToken (s tok : Str) : Option Str :=
  if strStartsWith s tok then
    let rest := s.drop tok.length
    match rest with
    | [] => some []
    | c :: _ => if isWs c || c = ',' then some rest else none
  else none

/-- The `trimmed.replace(/^(html|body|:root)(\s|$|,)/, '#content$2')`
rewrite: `none` when the regex does not match. -/
def globalRootReplace (trimmed : Str) : Option Str :=
  match stripGlobalToken trimmed (str "html") with
  | some rest => some (str "#content" ++ rest)
  | none =>
    match stripGlobalToken trimmed (str "body") with
    | some rest => some (str "#content" ++ rest)
    | none =>
      match stripGlobalToken trimmed (str ":root") with
      | some rest => some (str "#content" ++ rest)
      | none => none

/-- Model of `scopeSelector` from the render handler: keep selectors already
mentioning `#content`; turn a leading global root token into `#content`;
otherwise prefix with `#content `. -/
def scopeSelector (selector : Str) : Str :=
  let trimmed := jsTrim selector
  if strContainsSub trimmed (str "#content") then selector
  else
    match globalRootReplace trimmed with
    | some replaced => replaced
    | none => str "#content " ++ selector

/-- One line of the `scopedCSS` rewrite: blank and comment lines and
`@media`/`@supports` preludes pass through; a non-`@` line containing `{`
has each comma-separated selector scoped and is reassembled as
`selectors { rules`. -/
def scopeLine (line : Str) : Str :=
  if List.isEmpty (jsTrim line) || strStartsWith (jsTrim line) (str "/*") then
    line
  else if strStartsWith (jsTrim line) (str "@media")
      || strStartsWith (jsTrim line) (str "@supports") then
    line
  else if strContainsSub line (str "\x7b")
      && !strStartsWith (jsTrim line) (str "@") then
    match splitOnChar lbrace line with
    | [] => line
    | selector :: restParts =>
      if List.isEmpty restParts then line
      else
        let rules := joinSep (str "\x7b") restParts
        let scopedSelectors :=
          joinSep (str ", ") ((splitOnChar ',' selector).map scopeSelector)
        scopedSelectors ++ str " \x7b " ++ rules
  else line

/-- Model of `scopedCSS`: the line-based scoping rewrite applied to every line. -/
def scopedCSS (css : Str) : Str :=
  joinSep (str "\n") ((splitOnChar '\n' css).map scopeLine)

/-!  ## URL resolution (model of `new URL(input, base).href`)

Used by the image/URL-rewriting transforms.  Absolute http(s) inputs ignore
the base; root-relative inputs replace the base path; other inputs are
resolved against the directory of the base path.  Dot-segment
normalisation, percent-encoding and protocol-relative references are
outside the model. -/

/-- The directory part of a path: everything up to and including the last
slash. -/
def dirOfPath (p : Str) : Str :=
  (p.reverse.dropWhile (fun c => !(c = '/'))).reverse

/-- Model of `new URL(u, base).href`; `none` models the thrown
`TypeError`. -/
def resolveUrl (u base : Str) : Option Str :=
  if strStartsWith u (str "http://") || strStartsWith u (str "https://") then
    (parseURL u).map serializeURL
  else
    match parseURL base with
    | none => none
    | some b =>
      let path := u.takeWhile pathChar
      let search := u.drop path.length
      if strStartsWith u (str "/") then
        some (serializeURL { b with pathname := path, search := search })
      else
        some (serializeURL
          { b with pathname := dirOfPath b.pathname ++ path, search := search })

/-!  ## DOM model and transformImagesToAbsolute (src/extractor.ts)

The DOM capability (`parseHTML` / `document.toString()`) is external and
treated as a black box; a document is modelled directly as the list of its
elements, each a tag name with an attribute list, so parse/serialise is the
identity of the model.  `querySelectorAll('img[src]')` etc. become the
per-element guards on tag and attribute presence. -/

structure DomElement where
  tag : Str
  attrs : List (Str × Str)
deriving DecidableEq

/-- A document: its elements in document order. -/
abbrev Doc : Type := List DomElement


/-- Model of `getAttribute`: the value of the first attribute with the given name. -/
def getAttribute (el : DomElement) (name : Str) : Option Str :=
  (el.attrs.find? (fun a => a.1 = name)).map (fun a => a.2)

/-- Model of `hasAttribute`. -/
def hasAttribute (el : DomElement) (name : Str) : Bool :=
  el.attrs.any (fun a => a.1 = name)

/-- Model of `setAttribute`: overwrite an existing attribute in place, else append
it. -/
def setAttribute (el : DomElement) (name v : Str) : DomElement :=
  if hasAttribute el name then
    { el with attrs := el.attrs.map (fun a => if a.1 = name then (a.1, v) else a) }
  else
    { el with attrs := el.attrs ++ [(name, v)] }

/-- The recognised file extensions of the base-URL normalisation. -/
def fileExtensions : List Str :=
  [str ".html", str ".htm", str ".php", str ".asp", str ".aspx", str ".jsp",
   str ".pdf", str ".xml", str ".json"]

/-- The `normalizedBaseUrl` computation of `transformImagesToAbsolute`: a
base not ending in `/` whose last path segment has no recognised file
extension is treated as a directory by appending `/`; `none` models the
uncaught `new URL(baseUrl)` throw on an unparsable base. -/
def normalizedBase (baseUrl : Str) : Option Str :=
  if strEndsWith baseUrl (str "/") then some baseUrl
  else
    match parseURL baseUrl with
    | none => none
    | some url =>
      let pathParts := splitOnChar '/' url.pathname
      let lastPart := pathParts.getLastD []
      let hasFileExtension :=
        fileExtensions.any (fun ext => strEndsWith (jsToLower lastPart) ext)
      if !hasFileExtension then some (baseUrl ++ str "/") else some baseUrl

/-- Skip guard shared by all passes: `data:` URLs and already-absolute
URLs are left alone. -/
def isSkippableUrl (u : Str) : Bool :=
  strStartsWith u (str "data:") || strStartsWith u (str "http://")
    || strStartsWith u (str "https://")

/-- The `img[src]` pass: resolve a relative `src` against the normalised
base; resolution failures are swallowed. -/
def updateImgSrc (normBase : Str) (el : DomElement) : DomElement :=
  if el.tag = str "img" then
    match getAttribute el (str "src") with
    | none => el
    | some src =>
      if List.isEmpty src then el
      else if isSkippableUrl src then el
      else
        match resolveUrl src normBase with
        | some absoluteUrl => setAttribute el (str "src") absoluteUrl
        | none => el
  else el

/-- One comma-separated candidate of a `srcset` rewrite:
`const [url, descriptor] = part.trim().split(/\s+/)`, with the same skip
guards as `src`. -/
def rewriteSrcsetPart (normBase part : Str) : Str :=
  match splitWsJs (jsTrim part) with
  | [] => part
  | url :: rest =>
    if List.isEmpty url then part
    else if isSkippableUrl url then part
    else
      match resolveUrl url normBase with
      | none => part
      | some absoluteUrl =>
        match rest with
        | [] => absoluteUrl
        | descriptor :: _ => absoluteUrl ++ str " " ++ descriptor

/-- The `srcset` rewrite: split on commas, rewrite each candidate, re-join
with `', '`. -/
def rewriteSrcset (normBase srcset : Str) : Str :=
  joinSep (str ", ")
    ((splitOnChar ',' srcset).map (fun part => rewriteSrcsetPart normBase part))

/-- The `img[srcset]` pass. -/
def updateImgSrcset (normBase : Str) (el : DomElement) : DomElement :=
  if el.tag = str "img" then
    match getAttribute el (str "srcset") with
    | none => el
    | some srcset =>
      if List.isEmpty srcset then el
      else setAttribute el (str "srcset") (rewriteSrcset normBase srcset)
  else el

/-- The `source[srcset]` pass (identical rewrite on `<source>` elements). -/
def updateSourceSrcset (normBase : Str) (el : DomElement) : DomElement :=
  if el.tag = str "source" then
    match getAttribute el (str "srcset") with
    | none => el
    | some srcset =>
      if List.isEmpty srcset then el
      else setAttribute el (str "srcset") (rewriteSrcset normBase srcset)
  else el

/-- The falsy-coalescing read
`img.getAttribute('href') || img.getAttribute('xlink:href')` of the SVG
image pass. -/
def svgHrefValue (el : DomElement) : Str :=
  match getAttribute el (str "href") with
  | some v => if List.isEmpty v then (getAttribute el (str "xlink:href")).getD [] else v
  | none => (getAttribute el (str "xlink:href")).getD []

/-- The `image[href], image[xlink:href]` pass on SVG image elements: read
the href as the browser would, then set both present attributes to the
resolved URL. -/
def updateSvgHref (normBase : Str) (el : DomElement) : DomElement :=
  if el.tag = str "image" then
    if hasAttribute el (str "href") || hasAttribute el (str "xlink:href") then
      let href := svgHrefValue el
      if List.isEmpty href then el
      else if isSkippableUrl href then el
      else
        match resolveUrl href normBase with
        | none => el
        | some absoluteUrl =>
          let el1 := if hasAttribute el (str "href")
            then setAttribute el (str "href") absoluteUrl else el
          if hasAttribute el1 (str "xlink:href")
            then setAttribute el1 (str "xlink:href") absoluteUrl else el1
    else el
  else el

/-- All four passes applied to one element (the passes touch disjoint
attribute sets per tag, so per-element composition coincides with the four
document-wide passes of the source). -/
def transformElement (normBase : Str) (el : DomElement) : DomElement :=
  updateSourceSrcset normBase
    (updateSvgHref normBase (updateImgSrcset normBase (updateImgSrc normBase el)))

/-- Model of `transformImagesToAbsolute(html, baseUrl)` on the document model;
`none` models the uncaught throw of the base normalisation. -/
def transformImagesToAbsolute (doc : Doc) (baseUrl : Str) : Option Doc :=
  match normalizedBase baseUrl with
  | none => none
  | some normBase => some (doc.map (transformElement normBase))

/-!  ## AI renderer (src/renderers/ai-renderer.ts) -/

/-- The `ProcessedContent` record (timing interpolations in processing notes are
elided: the model has no clock). -/
structure ProcessedContentM where
  html : Str
  metadata : List (Str × Str)
  rendererName : Str
  processingNotes : List Str
deriving DecidableEq

/-- Environment of one `AIRenderer.process` call.  The content transforms
(`removeBoilerplate`, `transformImagesToAbsolute`, `marked.parse`,
`transformLinksToHtmx`) are opaque total string functions here — the claim
under verification concerns only the error propagation structure around
them.  `htmlToMarkdown` (the pandoc conversion) and `refineWithAI` (the
external text-completion call racing its timeout) may fail; a `.error`
outcome models a thrown exception, a timeout included. -/
structure AIEnv where
  removeBoilerplate : Str → Str
  transformImagesToAbsolute : Str → Str → Str
  htmlToMarkdown : Str → Except Str Str
  refineWithAI : Str → Except Str Str
  markedParse : Str → Str
  transformLinksToHtmx : Str → Str → Str
  enabled : Bool
  apiKey : Option Str

/-- The falsy test `!this.apiKey`. -/
def apiKeyMissing (k : Option Str) : Bool :=
  match k with
  | none => true
  | some key => List.isEmpty key

/-- Model of `AIRenderer.process`: standard extraction, pandoc conversion, then —
when AI is enabled — the guarded refinement step whose failure falls back
to the pandoc output inside the renderer. -/
def aiRendererProcess (env : AIEnv) (pageData : PageD) (sourceUrl : Str) :
    Except Str ProcessedContentM :=
  let cleanHtml := env.transformImagesToAbsolute
    (env.removeBoilerplate pageData.html) sourceUrl
  match env.htmlToMarkdown cleanHtml with
  | .error e => .error e
  | .ok markdown =>
    if !env.enabled || apiKeyMissing env.apiKey then
      .ok { html := env.transformLinksToHtmx (env.markedParse markdown) sourceUrl
            metadata := pageData.metadata
            rendererName := str "ai"
            processingNotes := [str "AI rendering disabled - using Pandoc output only"] }
    else
      match env.refineWithAI markdown with
      | .ok refinedMarkdown =>
        .ok { html := env.transformLinksToHtmx (env.markedParse refinedMarkdown) sourceUrl
              metadata := pageData.metadata
              rendererName := str "ai"
              processingNotes := [str "Content refined using AI"] }
      | .error errorMsg =>
        .ok { html := env.transformLinksToHtmx (env.markedParse markdown) sourceUrl
              metadata := pageData.metadata
              rendererName := str "ai"
              processingNotes :=
                [str "AI refinement failed: " ++ errorMsg ++ str " - using Pandoc output"] }

/-!  ## Markdown conversion endpoint (server.tsx, GET /markdown)

The handler is modelled from the request stage onwards: the `q` parameter,
the page fetch and renderer-processing outcomes, the startup
`pandocAvailable` flag, and the pandoc conversion call.  The auth gate
(outside the specified scope) is elided.  The second component of the
result records whether the conversion network call (`pandocConvert`) was
issued. -/

structure MarkdownEnv where
  pandocAvailable : Bool
  targetUrl : Option Str
  usePandoc : Bool
  fetchPageData : Except Str PageD
  processResult : Except Str ProcessedContentM
  acceptJson : Bool
  bodyInner : Str → Str
  pandocConvert : Str → Except Str Str

/-- The responses the `/markdown` handler can produce. -/
inductive MarkdownResponse where
  | errorResp (status : Nat) (message : Str)
  | markdownText (markdown : Str)
  | markdownJson (url markdown rendererUsed : Str)
deriving DecidableEq

/-- The startup-failure message thrown before any conversion call. -/
def pandocUnavailableMsg : Str :=
  str "Pandoc service is not available. Please check PANDOC_SERVICE_URL environment variable."

/-- The `GET /markdown` handler, paired with whether the conversion request
to the pandoc service was issued. -/
def markdownHandler (env : MarkdownEnv) : MarkdownResponse × Bool :=
  match env.targetUrl with
  | none => (.errorResp 400 (str "Missing \x27q\x27 parameter with URL"), false)
  | some targetUrl =>
    match env.fetchPageData with
    | .error e => (.errorResp 500 e, false)
    | .ok _ =>
      match env.processResult with
      | .error e => (.errorResp 500 e, false)
      | .ok processed =>
        if !env.pandocAvailable then
          (.errorResp 500 pandocUnavailableMsg, false)
        else
          let input := if env.usePandoc then processed.html
            else env.bodyInner processed.html
          match env.pandocConvert input with
          | .error e => (.errorResp 500 e, true)
          | .ok markdown =>
            (if env.acceptJson then
              .markdownJson targetUrl markdown processed.rendererName
            else .markdownText markdown, true)

/-!  ## Basic string lemmas -/

theorem strStartsWith_append (p r : Str) : strStartsWith (p ++ r) p = true := by
  induction p with
  | nil => cases r <;> rfl
  | cons c p ih => simp [strStartsWith, ih]

theorem strEndsWith_append (a p : Str) : strEndsWith (a ++ p) p = true := by
  unfold strEndsWith
  rw [List.reverse_append]
  exact strStartsWith_append _ _

theorem strContainsSub_of_strStartsWith {s p : Str}
    (h : strStartsWith s p = true) : strContainsSub s p = true := by
  cases s with
  | nil => exact h
  | cons c s => simp [strContainsSub, h]

theorem strContainsSub_parts (a p b : Str) :
    strContainsSub (a ++ (p ++ b)) p = true := by
  induction a with
  | nil =>
    exact strContainsSub_of_strStartsWith (strStartsWith_append p b)
  | cons c a ih => simp [strContainsSub, ih]

theorem strContainsSub_self (p : Str) : strContainsSub p p = true := by
  have := strContainsSub_parts [] p []
  simpa using this

/-!  ## C2: pattern matcher grammar examples -/

/-- C2.  The pattern matcher satisfies the spec grammar examples: `*`
matches every URL that parses; `*.example.com` matches every URL whose
(lowercased) hostname is a subdomain `sub ++ ".example.com"` of example.com
but not hostname `notexample.com`; `example.*` matches hostname
`example.org` but not `myexample.com`; `host/path/*` matches URLs whose
hostname+path is `host/path/` followed by anything but not `host/other`;
and a URL that fails to parse matches no pattern. -/
theorem matchesPattern_grammar_examples :
    (∀ url u, parseURL url = some u → matchesPattern url (str "*") = true)
    ∧ (∀ url u sub, parseURL url = some u →
        jsToLower u.hostname = sub ++ str ".example.com" →
        matchesPattern url (str "*.example.com") = true)
    ∧ (∀ url u, parseURL url = some u →
        jsToLower u.hostname = str "notexample.com" →
        matchesPattern url (str "*.example.com") = false)
    ∧ (∀ url u, parseURL url = some u →
        jsToLower u.hostname = str "example.org" →
        matchesPattern url (str "example.*") = true)
    ∧ (∀ url u, parseURL url = some u →
        jsToLower u.hostname = str "myexample.com" →
        matchesPattern url (str "example.*") = false)
    ∧ (∀ url u rest, parseURL url = some u →
        jsToLower u.hostname ++ jsToLower u.pathname = str "host/path/" ++ rest →
        matchesPattern url (str "host/path/*") = true)
    ∧ (∀ url u, parseURL url = some u →
        jsToLower u.hostname ++ jsToLower u.pathname = str "host/other" →
        matchesPattern url (str "host/path/*") = false)
    ∧ (∀ url pat, parseURL url = none → matchesPattern url pat = false) := by
  refine ⟨?_, ?_, ?_, ?_, ?_, ?_, ?_, ?_⟩
  · intro url u h
    unfold matchesPattern
    rw [h]
    simp [matchesPatternParsed]
  · intro url u sub h hh
    unfold matchesPattern
    rw [h]
    simp only [matchesPatternParsed]
    rw [hh]
    rw [if_neg (show ¬((str "*.example.com" : Str) = str "*") by decide)]
    rw [if_neg (show ¬(strContainsSub (str "*.example.com") (str "/") = true) by decide)]
    by_cases hcase : sub ++ str ".example.com" = jsToLower (str "*.example.com")
    · rw [if_pos hcase]
    · rw [if_neg hcase]
      rw [if_pos (show strStartsWith (str "*.example.com") (str "*.") = true by decide)]
      rw [show jsToLower (List.drop 1 (str "*.example.com")) = str ".example.com" by decide]
      exact strEndsWith_append _ _
  · intro url u h hh
    unfold matchesPattern
    rw [h]
    simp only [matchesPatternParsed]
    rw [hh]
    rw [if_neg (show ¬((str "*.example.com" : Str) = str "*") by decide)]
    rw [if_neg (show ¬(strContainsSub (str "*.example.com") (str "/") = true) by decide)]
    decide
  · intro url u h hh
    unfold matchesPattern
    rw [h]
    simp only [matchesPatternParsed]
    rw [hh]
    rw [if_neg (show ¬((str "example.*" : Str) = str "*") by decide)]
    rw [if_neg (show ¬(strContainsSub (str "example.*") (str "/") = true) by decide)]
    decide
  · intro url u h hh
    unfold matchesPattern
    rw [h]
    simp only [matchesPatternParsed]
    rw [hh]
    rw [if_neg (show ¬((str "example.*" : Str) = str "*") by decide)]
    rw [if_neg (show ¬(strContainsSub (str "example.*") (str "/") = true) by decide)]
    decide
  · intro url u rest h hfull
    unfold matchesPattern
    rw [h]
    simp only [matchesPatternParsed]
    rw [hfull]
    rw [if_neg (show ¬((str "host/path/*" : Str) = str "*") by decide)]
    rw [if_pos (show strContainsSub (str "host/path/*") (str "/") = true by decide)]
    by_cases hcase : str "host/path/" ++ rest = jsToLower (str "host/path/*")
    · rw [if_pos hcase]
    · rw [if_neg hcase]
      rw [if_pos (show strEndsWith (jsToLower (str "host/path/*")) (str "/*") = true by decide)]
      rw [show (jsToLower (str "host/path/*")).dropLast.dropLast = str "host/path" by decide]
      rw [show (str "host/path/" : Str) = str "host/path" ++ str "/" by decide]
      rw [List.append_assoc]
      exact strStartsWith_append _ _
  · intro url u h hfull
    unfold matchesPattern
    rw [h]
    simp only [matchesPatternParsed]
    rw [hfull]
    rw [if_neg (show ¬((str "host/path/*" : Str) = str "*") by decide)]
    rw [if_pos (show strContainsSub (str "host/path/*") (str "/") = true by decide)]
    decide
  · intro url pat h
    unfold matchesPattern
    rw [h]

/-- Witness for C2: `https://a.example.com/` parses and is matched by
`*.example.com`. -/
theorem matchesPattern_grammar_examples_witness :
    matchesPattern (str "https://a.example.com/") (str "*.example.com") = true :=
  matchesPattern_grammar_examples.2.1 (str "https://a.example.com/")
    { scheme := str "https", hostname := str "a.example.com",
      pathname := str "/", search := [] }
    (str "a") (by decide) (by decide)

/-!  ## C1: selection is total and returns the fallback iff nothing matches -/

theorem anyPatternMatches_eq_false_iff (url : Str) (ps : List Str) :
    anyPatternMatches url ps = false ↔ ∀ p ∈ ps, matchesPattern url p = false := by
  induction ps with
  | nil => simp [anyPatternMatches]
  | cons p ps ih =>
    by_cases h : matchesPattern url p = true
    · simp [anyPatternMatches, h]
    · simp only [Bool.not_eq_true] at h
      simp [anyPatternMatches, h, ih]

theorem findFirstRenderer_eq_none_iff (url : Str) (rs : List Renderer) :
    findFirstRenderer url rs = none ↔
      ∀ r ∈ rs, anyPatternMatches url r.patterns = false := by
  induction rs with
  | nil => simp [findFirstRenderer]
  | cons r rs ih =>
    by_cases h : anyPatternMatches url r.patterns = true
    · simp [findFirstRenderer, h]
    · simp only [Bool.not_eq_true] at h
      simp [findFirstRenderer, h, ih]

theorem findFirstRenderer_mem {url : Str} {rs : List Renderer} {r : Renderer}
    (h : findFirstRenderer url rs = some r) : r ∈ rs := by
  induction rs with
  | nil => simp [findFirstRenderer] at h
  | cons x rs ih =>
    by_cases hx : anyPatternMatches url x.patterns = true
    · simp [findFirstRenderer, hx] at h
      simp [h]
    · simp only [Bool.not_eq_true] at hx
      simp [findFirstRenderer, hx] at h
      exact List.mem_cons_of_mem _ (ih h)

/-- C1.  For every URL string and registry state whose fallback renderer is
not itself among the registered renderers, `selectRenderer` is total (it
always returns either a registered renderer or the fallback — as a Lean
function it is deterministic and never fails by construction), and it
returns the fallback renderer iff no pattern of any registered renderer
matches the URL. -/
theorem selectRenderer_total_and_fallback_iff (s : Registry) (url : Str)
    (hnd : s.defaultRenderer ∉ s.renderers) :
    (selectRenderer s url ∈ s.renderers ∨ selectRenderer s url = s.defaultRenderer)
    ∧ (selectRenderer s url = s.defaultRenderer ↔
        ∀ r ∈ s.renderers, ∀ p ∈ r.patterns, matchesPattern url p = false) := by
  unfold selectRenderer
  cases hfind : findFirstRenderer url s.renderers with
  | none =>
    refine ⟨Or.inr rfl, ?_⟩
    simp only [true_iff]
    rw [findFirstRenderer_eq_none_iff] at hfind
    exact fun r hr =>
      (anyPatternMatches_eq_false_iff url r.patterns).mp (hfind r hr)
  | some r =>
    have hmem : r ∈ s.renderers := findFirstRenderer_mem hfind
    refine ⟨Or.inl hmem, ?_⟩
    constructor
    · intro heq
      exact absurd (heq ▸ hmem) hnd
    · intro hall
      have : findFirstRenderer url s.renderers = none := by
        rw [findFirstRenderer_eq_none_iff]
        exact fun r hr =>
          (anyPatternMatches_eq_false_iff url r.patterns).mpr (hall r hr)
      rw [this] at hfind
      exact absurd hfind (by simp)

/-- Witness for C1: the discovered registry (wikipedia, arxiv, ai with the
default fallback) at a URL matching nothing. -/
theorem selectRenderer_total_and_fallback_iff_witness :
    (selectRenderer discoveredRegistry (str "https://example.net/") ∈
        discoveredRegistry.renderers
      ∨ selectRenderer discoveredRegistry (str "https://example.net/") =
        discoveredRegistry.defaultRenderer)
    ∧ (selectRenderer discoveredRegistry (str "https://example.net/") =
        discoveredRegistry.defaultRenderer ↔
        ∀ r ∈ discoveredRegistry.renderers, ∀ p ∈ r.patterns,
          matchesPattern (str "https://example.net/") p = false) :=
  selectRenderer_total_and_fallback_iff discoveredRegistry
    (str "https://example.net/") (by decide)

/-!  ## C3 / C10: adaptive fetch strategy -/

theorem browserFetchOutcome_method (env : SmartFetchEnv) (url : Str)
    (r : FetchResultM) (h : browserFetchOutcome env url = .ok r) :
    r.method = .chrome := by
  unfold browserFetchOutcome at h
  cases hb : env.browser with
  | ok pd => rw [hb] at h; cases h; rfl
  | error e => rw [hb] at h; exact Except.noConfusion h

/-- If the lightweight fetch succeeds with JS-gated markup (and the URL is
outside the forced/known-JS paths), `smartFetch` discards the lightweight
result and performs the browser fetch. -/
theorem smartFetch_detect_escalates (env : SmartFetchEnv) (url : Str)
    (em : Bool) (html : Str) (hhttp : env.http = .ok html)
    (hdet : detectJsRequired html = true)
    (hreq : requiresJavaScript url = false) :
    smartFetch env url false em =
      (browserFetchOutcome env url,
       { httpAttempted := true, browserAttempted := true }) := by
  unfold smartFetch
  rw [hreq, hhttp]
  simp [hdet]

/-- C3.  A URL whose (lowercased) hostname is one of the known JS-required
domains never attempts the lightweight HTTP path and any successful result
carries the browser (chrome) method; and a lightweight fetch whose markup
contains the phrase `Please enable JavaScript` is discarded in favour of
the browser fetch. -/
theorem smartFetch_known_js_and_enable_js :
    (∀ env url u forceBrowser em, parseURL url = some u →
        jsToLower u.hostname ∈ JS_REQUIRED_DOMAINS →
        (smartFetch env url forceBrowser em).2.httpAttempted = false
        ∧ ∀ r, (smartFetch env url forceBrowser em).1 = .ok r →
            r.method = .chrome)
    ∧ (∀ env url em a b, env.http = .ok (a ++ str "Please enable JavaScript" ++ b) →
        requiresJavaScript url = false →
        smartFetch env url false em =
          (browserFetchOutcome env url,
           { httpAttempted := true, browserAttempted := true })) := by
  constructor
  · intro env url u forceBrowser em hparse hmem
    have hreq : requiresJavaScript url = true := by
      unfold requiresJavaScript
      rw [hparse, List.any_eq_true]
      exact ⟨jsToLower u.hostname, hmem, strContainsSub_self _⟩
    cases forceBrowser with
    | true =>
      constructor
      · rfl
      · intro r hr
        exact browserFetchOutcome_method env url r hr
    | false =>
      unfold smartFetch
      rw [hreq]
      constructor
      · rfl
      · intro r hr
        exact browserFetchOutcome_method env url r hr
  · intro env url em a b hhttp hreq
    have hdet : detectJsRequired (a ++ str "Please enable JavaScript" ++ b) = true := by
      unfold detectJsRequired
      rw [List.any_eq_true]
      refine ⟨str "please enable javascript", by decide, ?_⟩
      show strContainsSub (jsToLower (a ++ str "Please enable JavaScript" ++ b)) _ = true
      unfold jsToLower
      rw [List.map_append, List.map_append]
      rw [show (str "Please enable JavaScript").map Char.toLower =
        str "please enable javascript" by decide]
      rw [List.append_assoc]
      exact strContainsSub_parts _ _ _
    exact smartFetch_detect_escalates env url em _ hhttp hdet hreq

/-- Witness for C3: `https://github.com/` is in the known JS-required set,
so the lightweight path is skipped; and a JS-gated body escalates. -/
theorem smartFetch_known_js_and_enable_js_witness :
    ((smartFetch
        { http := .error (str "unused"), browser := .ok { html := [], metadata := [] },
          extractMetadataFromHtml := fun _ => [] }
        (str "https://github.com/") false false).2.httpAttempted = false
      ∧ ∀ r, (smartFetch
        { http := .error (str "unused"), browser := .ok { html := [], metadata := [] },
          extractMetadataFromHtml := fun _ => [] }
        (str "https://github.com/") false false).1 = .ok r →
          r.method = .chrome) :=
  smartFetch_known_js_and_enable_js.1
    { http := .error (str "unused"), browser := .ok { html := [], metadata := [] },
      extractMetadataFromHtml := fun _ => [] }
    (str "https://github.com/")
    { scheme := str "https", hostname := str "github.com",
      pathname := str "/", search := [] }
    false false (by decide) (by decide)

/-- C10.  Any markup whose lowercased text contains `noscript` is reported
as JS-requiring by `detectJsRequired`, so a successful lightweight fetch of
such a page is discarded and the page is re-fetched with the browser. -/
theorem noscript_triggers_browser_refetch :
    (∀ html, strContainsSub (jsToLower html) (str "noscript") = true →
        detectJsRequired html = true)
    ∧ (∀ env url em html, env.http = .ok html →
        strContainsSub (jsToLower html) (str "noscript") = true →
        requiresJavaScript url = false →
        smartFetch env url false em =
          (browserFetchOutcome env url,
           { httpAttempted := true, browserAttempted := true })) := by
  have hdet : ∀ html : Str, strContainsSub (jsToLower html) (str "noscript") = true →
      detectJsRequired html = true := by
    intro html h
    unfold detectJsRequired
    rw [List.any_eq_true]
    exact ⟨str "noscript", by decide, h⟩
  refine ⟨hdet, ?_⟩
  intro env url em html hhttp hsub hreq
  exact smartFetch_detect_escalates env url em html hhttp (hdet html hsub) hreq

/-- Witness for C10: a page with a bare `<noscript>` tag is detected and
escalated to the browser path. -/
theorem noscript_triggers_browser_refetch_witness :
    detectJsRequired (str "<html><noscript>x</noscript></html>") = true :=
  noscript_triggers_browser_refetch.1
    (str "<html><noscript>x</noscript></html>") (by decide)

/-!  ## C4: the lightweight fetch rejects non-HTML content types -/

/-- C4.  Whenever the declared content type does not indicate HTML,
`fetchWithHttp` fails — it never returns the body as a success — and when
the response status was OK the failure is precisely the `nonHtml` error
carrying that content type. -/
theorem fetchWithHttp_rejects_non_html (response : HttpResponse)
    (h : strContainsSub (response.contentType.getD []) (str "text/html") = false) :
    (∀ html, fetchWithHttp response ≠ .ok html)
    ∧ (response.ok = true →
        fetchWithHttp response = .error (.nonHtml (response.contentType.getD []))) := by
  constructor
  · intro html hok
    unfold fetchWithHttp at hok
    cases hresp : response.ok with
    | false => rw [hresp] at hok; exact Except.noConfusion hok
    | true =>
      rw [hresp] at hok
      simp only [Bool.not_true, if_neg] at hok
      rw [h] at hok
      simp at hok
  · intro hok
    simp [fetchWithHttp, hok, h]

/-- Witness for C4: a JSON response is rejected with the `nonHtml`
error. -/
theorem fetchWithHttp_rejects_non_html_witness :
    (∀ html, fetchWithHttp
        { ok := true, status := 200, statusText := str "OK",
          contentType := some (str "application/json"), body := str "[]" } ≠ .ok html)
    ∧ (({ ok := true, status := 200, statusText := str "OK",
          contentType := some (str "application/json"),
          body := str "[]" } : HttpResponse).ok = true →
        fetchWithHttp
          { ok := true, status := 200, statusText := str "OK",
            contentType := some (str "application/json"), body := str "[]" } =
          .error (.nonHtml (str "application/json"))) := by
  have := fetchWithHttp_rejects_non_html
    { ok := true, status := 200, statusText := str "OK",
      contentType := some (str "application/json"), body := str "[]" }
    (by decide)
  simpa using this

/-!  ## C7: the AI renderer never raises past the renderer boundary -/

/-- C7.  Whenever the non-AI pipeline prefix succeeds (the pandoc
conversion produced markdown `md`), `AIRenderer.process` returns a result
— it never throws — and whenever the AI refinement step is taken (AI
enabled with an API key) and fails (the external call or its timeout), the
returned markup is exactly the non-AI pipeline output: the pandoc markdown
rendered back to HTML. -/
theorem aiRendererProcess_never_raises (env : AIEnv) (pageData : PageD)
    (sourceUrl md : Str)
    (hmd : env.htmlToMarkdown
      (env.transformImagesToAbsolute
        (env.removeBoilerplate pageData.html) sourceUrl) = .ok md) :
    (∃ pc, aiRendererProcess env pageData sourceUrl = .ok pc)
    ∧ (env.enabled = true → apiKeyMissing env.apiKey = false →
        ∀ e, env.refineWithAI md = .error e →
        aiRendererProcess env pageData sourceUrl =
          .ok { html := env.transformLinksToHtmx (env.markedParse md) sourceUrl
                metadata := pageData.metadata
                rendererName := str "ai"
                processingNotes :=
                  [str "AI refinement failed: " ++ e ++ str " - using Pandoc output"] }) := by
  constructor
  · simp only [aiRendererProcess]
    rw [hmd]
    by_cases hen : (!env.enabled || apiKeyMissing env.apiKey) = true
    · simp [hen]
    · cases href : env.refineWithAI md with
      | ok refined => simp [hen, href]
      | error e => simp [hen, href]
  · intro henabled hkey e he
    have hen : (!env.enabled || apiKeyMissing env.apiKey) = false := by
      rw [henabled, hkey]
      rfl
    simp only [aiRendererProcess]
    rw [hmd]
    simp [hen, he]

/-- A concrete AI-renderer environment whose refinement call times out. -/
def c7Environment : AIEnv :=
  { removeBoilerplate := fun h => h
    transformImagesToAbsolute := fun h _ => h
    htmlToMarkdown := fun _ => .ok (str "# md")
    refineWithAI := fun _ => .error (str "AI API request timed out after 30000ms")
    markedParse := fun m => m
    transformLinksToHtmx := fun h _ => h
    enabled := true
    apiKey := some (str "key") }

/-- Witness for C7: with a timing-out refinement call, `process` still
returns the pandoc-rendered output. -/
theorem aiRendererProcess_never_raises_witness :
    (∃ pc, aiRendererProcess c7Environment
      { html := str "<p>x</p>", metadata := [] } (str "https://example.com/") = .ok pc)
    ∧ (c7Environment.enabled = true → apiKeyMissing c7Environment.apiKey = false →
        ∀ e, c7Environment.refineWithAI (str "# md") = .error e →
        aiRendererProcess c7Environment
          { html := str "<p>x</p>", metadata := [] } (str "https://example.com/") =
          .ok { html := c7Environment.transformLinksToHtmx
                  (c7Environment.markedParse (str "# md")) (str "https://example.com/")
                metadata := []
                rendererName := str "ai"
                processingNotes :=
                  [str "AI refinement failed: " ++ e ++ str " - using Pandoc output"] }) :=
  aiRendererProcess_never_raises c7Environment
    { html := str "<p>x</p>", metadata := [] } (str "https://example.com/")
    (str "# md") rfl

/-!  ## C8: markdown conversion is gated on the startup health check -/

/-- C8.  When the startup pandoc health check failed, the `/markdown`
handler never issues the conversion request to the pandoc service, and —
whenever the request carries a target URL and the fetch and renderer stages
succeed — it responds with the service-unavailable error. -/
theorem markdownHandler_unavailable_gates_conversion (env : MarkdownEnv)
    (hun : env.pandocAvailable = false) :
    (markdownHandler env).2 = false
    ∧ (∀ url pd pc, env.targetUrl = some url → env.fetchPageData = .ok pd →
        env.processResult = .ok pc →
        (markdownHandler env).1 = .errorResp 500 pandocUnavailableMsg) := by
  constructor
  · unfold markdownHandler
    cases hq : env.targetUrl with
    | none => rfl
    | some url =>
      cases hf : env.fetchPageData with
      | error e => rfl
      | ok pd =>
        cases hp : env.processResult with
        | error e => rfl
        | ok pc => rw [hun]; rfl
  · intro url pd pc hq hf hp
    unfold markdownHandler
    rw [hq, hf, hp, hun]
    rfl

/-- A concrete `/markdown` environment whose startup health check failed. -/
def c8Environment : MarkdownEnv :=
  { pandocAvailable := false
    targetUrl := some (str "https://example.com/")
    usePandoc := true
    fetchPageData := .ok { html := str "<p>x</p>", metadata := [] }
    processResult := .ok { html := str "<p>x</p>", metadata := [],
                           rendererName := str "default", processingNotes := [] }
    acceptJson := false
    bodyInner := fun h => h
    pandocConvert := fun _ => .ok (str "x") }

/-- Witness for C8: a concrete environment with a failed health check. -/
theorem markdownHandler_unavailable_gates_conversion_witness :
    ((markdownHandler c8Environment).2 = false)
    ∧ (∀ url pd pc, c8Environment.targetUrl = some url →
        c8Environment.fetchPageData = .ok pd →
        c8Environment.processResult = .ok pc →
        (markdownHandler c8Environment).1 = .errorResp 500 pandocUnavailableMsg) :=
  markdownHandler_unavailable_gates_conversion c8Environment rfl

/-!  ## C5: CSS scoping examples -/

/-- C5.  The CSS scoping rewrite on the spec examples: the selector of
`body \x7b color: red \x7d` becomes `#content`; the selector list of
`.foo, html \x7b x: 1 \x7d` becomes `#content .foo, #content`; and in an
`@media` block the prelude line passes through unmodified while the nested
selector `a` becomes `#content a` (the rewrite re-inserts the brace with
padding spaces, so the full lines are also stated exactly). -/
theorem scopedCSS_spec_examples :
    scopedCSS (str "body \x7b color: red \x7d") = str "#content \x7b  color: red \x7d"
    ∧ jsTrim ((splitOnChar lbrace (scopedCSS (str "body \x7b color: red \x7d"))).headD [])
        = str "#content"
    ∧ scopedCSS (str ".foo, html \x7b x: 1 \x7d")
        = str "#content .foo, #content \x7b  x: 1 \x7d"
    ∧ jsTrim ((splitOnChar lbrace (scopedCSS (str ".foo, html \x7b x: 1 \x7d"))).headD [])
        = str "#content .foo, #content"
    ∧ scopedCSS (str "@media (max-width: 600px) \x7b\na \x7b x:1 \x7d\n\x7d")
        = str "@media (max-width: 600px) \x7b\n#content a  \x7b  x:1 \x7d\n\x7d"
    ∧ (splitOnChar '\n'
        (scopedCSS (str "@media (max-width: 600px) \x7b\na \x7b x:1 \x7d\n\x7d"))).headD []
        = str "@media (max-width: 600px) \x7b"
    ∧ jsTrim ((splitOnChar lbrace
        ((splitOnChar '\n'
          (scopedCSS (str "@media (max-width: 600px) \x7b\na \x7b x:1 \x7d\n\x7d"))).getD 1 [])).headD [])
        = str "#content a" := by
  decide

/-!  ## C9: priority dispatch order -/

theorem mem_insertLate {y x : Renderer} {acc : List Renderer} :
    y ∈ insertLate x acc ↔ y = x ∨ y ∈ acc := by
  induction acc with
  | nil => simp [insertLate]
  | cons a acc ih =>
    by_cases h : x.priority ≤ a.priority
    · simp only [insertLate, if_pos h, List.mem_cons, ih]
      tauto
    · simp only [insertLate, if_neg h, List.mem_cons]

theorem insertLate_all_ge {x : Renderer} {acc : List Renderer}
    (h : ∀ a ∈ acc, x.priority ≤ a.priority) :
    insertLate x acc = acc ++ [x] := by
  induction acc with
  | nil => rfl
  | cons a acc ih =>
    have ha : x.priority ≤ a.priority := h a (List.mem_cons_self a acc)
    simp only [insertLate, if_pos ha, List.cons_append, List.cons.injEq, true_and]
    exact ih (fun b hb => h b (List.mem_cons_of_mem a hb))

theorem insertLate_sorted {x : Renderer} {acc : List Renderer}
    (h : List.Pairwise (fun a b => b.priority ≤ a.priority) acc) :
    List.Pairwise (fun a b => b.priority ≤ a.priority) (insertLate x acc) := by
  induction acc with
  | nil => simp [insertLate]
  | cons a acc ih =>
    rcases List.pairwise_cons.mp h with ⟨ha, htail⟩
    by_cases hle : x.priority ≤ a.priority
    · rw [insertLate, if_pos hle]
      refine List.pairwise_cons.mpr ⟨?_, ih htail⟩
      intro y hy
      rcases mem_insertLate.mp hy with rfl | hmem
      · exact hle
      · exact ha y hmem
    · rw [insertLate, if_neg hle]
      have hax : a.priority ≤ x.priority := le_of_lt (lt_of_not_le hle)
      refine List.pairwise_cons.mpr ⟨?_, h⟩
      intro y hy
      rcases List.mem_cons.mp hy with rfl | hmem
      · exact hax
      · exact le_trans (ha y hmem) hax

theorem foldl_insertLate_of_sorted (s acc : List Renderer)
    (h : List.Pairwise (fun a b => b.priority ≤ a.priority) (acc ++ s)) :
    s.foldl (fun acc r => insertLate r acc) acc = acc ++ s := by
  induction s generalizing acc with
  | nil => simp
  | cons x s ih =>
    have hins : insertLate x acc = acc ++ [x] := by
      refine insertLate_all_ge ?_
      intro a hmem
      have := (List.pairwise_append.mp h).2.2
      exact this a hmem x (List.mem_cons_self x s)
    have hre : (acc ++ [x]) ++ s = acc ++ x :: s := by
      simp
    calc (x :: s).foldl (fun acc r => insertLate r acc) acc
        = s.foldl (fun acc r => insertLate r acc) (insertLate x acc) := rfl
      _ = s.foldl (fun acc r => insertLate r acc) (acc ++ [x]) := by rw [hins]
      _ = (acc ++ [x]) ++ s := ih (acc ++ [x]) (by rw [hre]; exact h)
      _ = acc ++ x :: s := hre

theorem stableSortDesc_of_sorted {s : List Renderer}
    (h : List.Pairwise (fun a b => b.priority ≤ a.priority) s) :
    stableSortDesc s = s :=
  foldl_insertLate_of_sorted s [] (by simpa using h)

theorem stableSortDesc_sorted (s : List Renderer) :
    List.Pairwise (fun a b => b.priority ≤ a.priority) (stableSortDesc s) := by
  suffices hgen : ∀ (s acc : List Renderer),
      List.Pairwise (fun a b => b.priority ≤ a.priority) acc →
      List.Pairwise (fun a b => b.priority ≤ a.priority)
        (s.foldl (fun acc r => insertLate r acc) acc) by
    exact hgen s [] (by simp)
  intro s
  induction s with
  | nil => intro acc h; simpa using h
  | cons x s ih =>
    intro acc h
    exact ih (insertLate x acc) (insertLate_sorted h)

theorem stableSortDesc_append_single (s : List Renderer) (x : Renderer) :
    stableSortDesc (s ++ [x]) = insertLate x (stableSortDesc s) := by
  simp [stableSortDesc, List.foldl_append]

theorem filter_insertLate_of_ne {x : Renderer} {p : Int} (acc : List Renderer)
    (hx : (x.priority == p) = false) :
    (insertLate x acc).filter (fun r => r.priority == p)
      = acc.filter (fun r => r.priority == p) := by
  induction acc with
  | nil => simp [insertLate, hx]
  | cons a acc ih =>
    by_cases h : x.priority ≤ a.priority
    · rw [insertLate, if_pos h]
      simp only [List.filter_cons, ih]
    · rw [insertLate, if_neg h]
      simp [List.filter_cons, hx]

theorem filter_insertLate_of_eq {x : Renderer} {p : Int} {acc : List Renderer}
    (hsorted : List.Pairwise (fun a b => b.priority ≤ a.priority) acc)
    (hx : (x.priority == p) = true) :
    (insertLate x acc).filter (fun r => r.priority == p)
      = acc.filter (fun r => r.priority == p) ++ [x] := by
  induction acc with
  | nil => simp [insertLate, hx]
  | cons a acc ih =>
    rcases List.pairwise_cons.mp hsorted with ⟨ha, htail⟩
    by_cases h : x.priority ≤ a.priority
    · rw [insertLate, if_pos h]
      simp only [List.filter_cons, ih htail]
      by_cases hap : (a.priority == p) = true
      · simp [hap]
      · simp [hap]
    · rw [insertLate, if_neg h]
      have hxp : x.priority = p := by simpa using hx
      have hlt : a.priority < x.priority := lt_of_not_le h
      have hnil : acc.filter (fun r => r.priority == p) = [] := by
        rw [List.filter_eq_nil_iff]
        intro b hb
        have hba : b.priority ≤ a.priority := ha b hb
        have : b.priority ≠ p := by
          intro hbp
          rw [hbp, ← hxp] at hba
          exact absurd (lt_of_le_of_lt hba hlt) (lt_irrefl _)
        simpa using this
      have hanp : (a.priority == p) = false := by
        have : a.priority ≠ p := by
          intro hap
          rw [hap, ← hxp] at hlt
          exact absurd hlt (lt_irrefl _)
        simpa using this
      simp [List.filter_cons, hx, hanp, hnil]

theorem filter_stableSortDesc (s : List Renderer) (p : Int) :
    (stableSortDesc s).filter (fun r => r.priority == p)
      = s.filter (fun r => r.priority == p) := by
  induction s using List.reverseRecOn with
  | nil => rfl
  | append_singleton s x ih =>
    rw [stableSortDesc_append_single]
    by_cases hx : (x.priority == p) = true
    · rw [filter_insertLate_of_eq (stableSortDesc_sorted s) hx, ih]
      simp [List.filter_append, hx]
    · rw [filter_insertLate_of_ne _ (by simpa using hx), ih]
      simp [List.filter_append, Bool.eq_false_iff.mpr, hx]

theorem registerAll_defaultRenderer (regs : List Renderer) :
    (registerAll regs).defaultRenderer = defaultRendererDescriptor := by
  suffices hgen : ∀ (regs : List Renderer) (s : Registry),
      (regs.foldl register s).defaultRenderer = s.defaultRenderer by
    exact hgen regs initialRegistry
  intro regs
  induction regs with
  | nil => intro s; rfl
  | cons r regs ih => intro s; exact ih (register s r)

theorem registerAll_renderers (regs : List Renderer) :
    (registerAll regs).renderers = stableSortDesc regs := by
  induction regs using List.reverseRecOn with
  | nil => rfl
  | append_singleton regs r ih =>
    have hfold : registerAll (regs ++ [r]) = register (registerAll regs) r := by
      simp [registerAll, List.foldl_append]
    rw [hfold]
    show stableSortDesc ((registerAll regs).renderers ++ [r]) = _
    rw [ih, stableSortDesc_append_single, stableSortDesc_append_single,
      stableSortDesc_of_sorted (stableSortDesc_sorted regs)]

theorem anyPatternMatches_eq_any (url : Str) (ps : List Str) :
    anyPatternMatches url ps = ps.any (fun pat => matchesPattern url pat) := by
  induction ps with
  | nil => rfl
  | cons q ps ih =>
    by_cases h : matchesPattern url q = true
    · simp [anyPatternMatches, h]
    · simp only [Bool.not_eq_true] at h
      simp [anyPatternMatches, h, ih]

theorem findFirstRenderer_eq_find (url : Str) (rs : List Renderer) :
    findFirstRenderer url rs
      = rs.find? (fun r => r.patterns.any (fun pat => matchesPattern url pat)) := by
  induction rs with
  | nil => rfl
  | cons r rs ih =>
    by_cases h : anyPatternMatches url r.patterns = true
    · rw [findFirstRenderer, if_pos h]
      rw [anyPatternMatches_eq_any] at h
      simp [List.find?_cons, h]
    · simp only [Bool.not_eq_true] at h
      rw [findFirstRenderer, if_neg (by simp [h]), ih]
      rw [anyPatternMatches_eq_any] at h
      simp [List.find?_cons, h]

/-- C9.  Renderer dispatch follows priority order: for any registration
sequence, the registry holds exactly the stable descending-priority sort of
the registered renderers (descending priorities, with renderers of any
fixed priority kept in registration order), and selection returns the
first renderer in that order one of whose declared patterns (tried in
declaration order) matches, falling back to the default renderer last. -/
theorem registry_priority_dispatch (regs : List Renderer) (url : Str) (p : Int) :
    (registerAll regs).renderers = stableSortDesc regs
    ∧ List.Pairwise (fun a b => b.priority ≤ a.priority) (stableSortDesc regs)
    ∧ (stableSortDesc regs).filter (fun r => r.priority == p)
        = regs.filter (fun r => r.priority == p)
    ∧ selectRenderer (registerAll regs) url
        = ((stableSortDesc regs).find?
            (fun r => r.patterns.any (fun pat => matchesPattern url pat))).getD
            defaultRendererDescriptor := by
  refine ⟨registerAll_renderers regs, stableSortDesc_sorted regs,
    filter_stableSortDesc regs p, ?_⟩
  unfold selectRenderer
  rw [registerAll_renderers regs, registerAll_defaultRenderer regs,
    findFirstRenderer_eq_find]
  cases (stableSortDesc regs).find?
      (fun r => r.patterns.any (fun pat => matchesPattern url pat)) with
  | none => rfl
  | some r => rfl

/-!  ## C6: transformImagesToAbsolute and idempotence -/

/-- A document with one image whose `srcset` declares two (already
absolute) candidates. -/
def c6Doc : Doc :=
  [{ tag := str "img",
     attrs := [(str "srcset", str "http://h/a.png 1x,http://h/b.png 2x")] }]

/-- Counterexample to C6 as stated: on a two-candidate `srcset` the rewrite
re-joins with `', '` but keeps the untrimmed candidates, so the second
application inserts one more space than the first
(`"...1x, http..."` becomes `"...1x,  http..."`). -/
theorem transformImagesToAbsolute_not_idempotent :
    ¬ ((transformImagesToAbsolute c6Doc (str "http://h/")).bind
        (fun d => transformImagesToAbsolute d (str "http://h/"))
      = transformImagesToAbsolute c6Doc (str "http://h/")) := by
  decide

/-!  ### Helper lemmas for the amended idempotence theorem -/

/-- A base URL is well behaved when it contains no comma and no
whitespace. -/
def baseOk (s : Str) : Prop := ∀ c ∈ s, c ≠ ',' ∧ isWs c = false

/-- A `srcset` attribute value is single-candidate when it contains no
comma. -/
def commaFree (s : Str) : Prop := ∀ c ∈ s, c ≠ ','

theorem strStartsWith_iff {s p : Str} :
    strStartsWith s p = true ↔ ∃ t, s = p ++ t := by
  constructor
  · intro h
    induction p generalizing s with
    | nil => exact ⟨s, rfl⟩
    | cons d p ih =>
      cases s with
      | nil => exact absurd h (by simp [strStartsWith])
      | cons c s =>
        rw [strStartsWith, Bool.and_eq_true, decide_eq_true_eq] at h
        obtain ⟨t, ht⟩ := ih h.2
        exact ⟨t, by rw [h.1, List.cons_append, ht]⟩
  · rintro ⟨t, rfl⟩
    exact strStartsWith_append p t

theorem drop_takeWhile_length (p : Char → Bool) (l : Str) :
    l.drop (l.takeWhile p).length = l.dropWhile p := by
  induction l with
  | nil => rfl
  | cons c l ih =>
    by_cases h : p c
    · simp [List.takeWhile_cons, List.dropWhile_cons, h, ih]
    · simp [List.takeWhile_cons, List.dropWhile_cons, h]

theorem mem_of_mem_takeWhile {c : Char} {p : Char → Bool} {l : Str}
    (h : c ∈ l.takeWhile p) : c ∈ l := by
  induction l with
  | nil => simp at h
  | cons d l ih =>
    rw [List.takeWhile_cons] at h
    by_cases hp : p d
    · rw [if_pos hp] at h
      rcases List.mem_cons.mp h with rfl | hm
      · exact List.mem_cons_self _ _
      · exact List.mem_cons_of_mem _ (ih hm)
    · rw [if_neg hp] at h
      simp at h

theorem mem_of_mem_dropWhile {c : Char} {p : Char → Bool} {l : Str}
    (h : c ∈ l.dropWhile p) : c ∈ l :=
  (List.dropWhile_suffix p).subset h

theorem mem_of_mem_jsTrim {c : Char} {s : Str} (h : c ∈ jsTrim s) : c ∈ s := by
  unfold jsTrim at h
  rw [List.mem_reverse] at h
  have h1 := mem_of_mem_dropWhile h
  rw [List.mem_reverse] at h1
  exact mem_of_mem_dropWhile h1

theorem mem_of_mem_dirOfPath {c : Char} {p : Str} (h : c ∈ dirOfPath p) : c ∈ p := by
  unfold dirOfPath at h
  rw [List.mem_reverse] at h
  have h1 := mem_of_mem_dropWhile h
  rw [List.mem_reverse] at h1
  exact h1

theorem dirOfPath_isPre (p : Str) : dirOfPath p <+: p := by
  unfold dirOfPath
  rw [← List.reverse_suffix, List.reverse_reverse]
  exact List.dropWhile_suffix _

theorem splitOnChar_ne_nil (sep : Char) (l : Str) : splitOnChar sep l ≠ [] := by
  cases l with
  | nil => simp [splitOnChar]
  | cons c l =>
    rw [splitOnChar]
    cases h : splitOnChar sep l with
    | nil => simp
    | cons y ys =>
      by_cases hc : c = sep
      · simp [hc]
      · simp [hc]

theorem mem_splitOnChar_mem {sep : Char} {l : Str} {t : Str}
    (ht : t ∈ splitOnChar sep l) {c : Char} (hc : c ∈ t) :
    c ∈ l ∧ ¬c = sep := by
  induction l generalizing t with
  | nil =>
    simp only [splitOnChar, List.mem_singleton] at ht
    subst ht
    simp at hc
  | cons x xs ih =>
    rw [splitOnChar] at ht
    cases hsp : splitOnChar sep xs with
    | nil => exact absurd hsp (splitOnChar_ne_nil sep xs)
    | cons y ys =>
      rw [hsp] at ht
      dsimp only at ht
      by_cases hx : x = sep
      · rw [if_pos hx] at ht
        rcases List.mem_cons.mp ht with rfl | hmem
        · simp at hc
        · have := ih (t := t) (by rw [hsp]; exact hmem) hc
          exact ⟨List.mem_cons_of_mem _ this.1, this.2⟩
      · rw [if_neg hx] at ht
        rcases List.mem_cons.mp ht with rfl | hmem
        · rcases List.mem_cons.mp hc with rfl | hmem2
          · exact ⟨List.mem_cons_self _ _, hx⟩
          · have := ih (t := y) (by rw [hsp]; exact List.mem_cons_self _ _) hmem2
            exact ⟨List.mem_cons_of_mem _ this.1, this.2⟩
        · have := ih (t := t) (by rw [hsp]; exact List.mem_cons_of_mem _ hmem) hc
          exact ⟨List.mem_cons_of_mem _ this.1, this.2⟩

theorem splitOnChar_of_no_sep {sep : Char} {l : Str}
    (h : ∀ c ∈ l, ¬c = sep) : splitOnChar sep l = [l] := by
  induction l with
  | nil => rfl
  | cons c l ih =>
    rw [splitOnChar, ih (fun d hd => h d (List.mem_cons_of_mem _ hd))]
    dsimp only
    rw [if_neg (h c (List.mem_cons_self _ _))]

theorem splitOnChar_append_sep {sep : Char} {a b : Str}
    (h : ∀ c ∈ a, ¬c = sep) :
    splitOnChar sep (a ++ sep :: b) = a :: splitOnChar sep b := by
  induction a with
  | nil =>
    rw [List.nil_append, splitOnChar]
    cases hsp : splitOnChar sep b with
    | nil => exact absurd hsp (splitOnChar_ne_nil sep b)
    | cons y ys =>
      simp
  | cons c a ih =>
    rw [List.cons_append, splitOnChar,
      ih (fun d hd => h d (List.mem_cons_of_mem _ hd))]
    dsimp only
    rw [if_neg (h c (List.mem_cons_self _ _))]

theorem head?_mem {c : Char} {l : Str} (h : l.head? = some c) : c ∈ l := by
  cases l with
  | nil => simp at h
  | cons d l =>
    rw [List.head?_cons, Option.some.injEq] at h
    rw [← h]
    exact List.mem_cons_self _ _

theorem getLast?_mem {c : Char} {l : Str} (h : l.getLast? = some c) : c ∈ l := by
  rw [← List.head?_reverse] at h
  exact List.mem_reverse.mp (head?_mem h)

theorem dropWhile_isWs_of_head {s : Str}
    (h : ∀ c, s.head? = some c → isWs c = false) : s.dropWhile isWs = s := by
  cases s with
  | nil => rfl
  | cons c s => rw [List.dropWhile_cons, if_neg (by simp [h c rfl])]

theorem jsTrim_eq_self {s : Str}
    (h1 : ∀ c, s.head? = some c → isWs c = false)
    (h2 : ∀ c, s.getLast? = some c → isWs c = false) : jsTrim s = s := by
  unfold jsTrim
  rw [dropWhile_isWs_of_head h1]
  rw [dropWhile_isWs_of_head (fun c hc => h2 c (by rwa [List.head?_reverse] at hc))]
  exact List.reverse_reverse s

theorem jsTrim_of_wsFree {s : Str} (h : ∀ c ∈ s, isWs c = false) :
    jsTrim s = s :=
  jsTrim_eq_self (fun c hc => h c (head?_mem hc)) (fun c hc => h c (getLast?_mem hc))

theorem mem_wsSplit_token {t s : Str} (ht : t ∈ wsSplit s) :
    t ≠ [] ∧ ∀ c ∈ t, isWs c = false ∧ c ∈ s := by
  unfold wsSplit at ht
  rw [List.mem_filter] at ht
  obtain ⟨hmem, hne⟩ := ht
  refine ⟨by simpa using hne, ?_⟩
  intro c hc
  have := mem_splitOnChar_mem hmem hc
  obtain ⟨hmap, hcs⟩ := this
  rw [List.mem_map] at hmap
  obtain ⟨x, hx, hfx⟩ := hmap
  by_cases hwx : isWs x
  · rw [if_pos hwx] at hfx
    exact absurd hfx.symm hcs
  · rw [if_neg hwx] at hfx
    rw [← hfx]
    exact ⟨by simpa using hwx, hx⟩

theorem wsSplit_single {s : Str} (hne : s ≠ [])
    (h : ∀ c ∈ s, isWs c = false) : wsSplit s = [s] := by
  unfold wsSplit
  have hmap : s.map (fun c => if isWs c then ' ' else c) = s := by
    rw [show s.map (fun c => if isWs c then ' ' else c) = s.map id from
      List.map_congr_left (fun c hc => by rw [if_neg (by simp [h c hc])]; rfl)]
    exact List.map_id s
  rw [hmap, splitOnChar_of_no_sep (fun c hc => by
    intro hcsp
    have := h c hc
    rw [hcsp] at this
    simp [isWs] at this)]
  simp [hne]

theorem splitWsJs_single {s : Str} (hne : s ≠ [])
    (h : ∀ c ∈ s, isWs c = false) : splitWsJs s = [s] := by
  unfold splitWsJs
  rw [if_neg (by simpa using hne)]
  exact wsSplit_single hne h

theorem splitWsJs_pair {a d : Str} (hna : a ≠ []) (ha : ∀ c ∈ a, isWs c = false)
    (hnd : d ≠ []) (hd : ∀ c ∈ d, isWs c = false) :
    splitWsJs (a ++ str " " ++ d) = [a, d] := by
  have hre : a ++ str " " ++ d = a ++ ' ' :: d := by
    rw [List.append_assoc]
    rfl
  rw [hre]
  unfold splitWsJs
  rw [if_neg (by cases a with
    | nil => exact absurd rfl hna
    | cons x xs => simp)]
  unfold wsSplit
  have hmap : (a ++ ' ' :: d).map (fun c => if isWs c then ' ' else c)
      = a ++ ' ' :: d := by
    rw [show (a ++ ' ' :: d).map (fun c => if isWs c then ' ' else c)
        = (a ++ ' ' :: d).map id from
      List.map_congr_left ?_]
    · exact List.map_id _
    · intro c hc
      rcases List.mem_append.mp hc with hca | hcd
      · rw [if_neg (by simp [ha c hca])]; rfl
      · rcases List.mem_cons.mp hcd with rfl | hcd2
        · simp
        · rw [if_neg (by simp [hd c hcd2])]; rfl
  rw [hmap]
  rw [splitOnChar_append_sep (fun c hc => by
    intro hcsp
    have := ha c hc
    rw [hcsp] at this
    simp [isWs] at this)]
  rw [splitOnChar_of_no_sep (fun c hc => by
    intro hcsp
    have := hd c hc
    rw [hcsp] at this
    simp [isWs] at this)]
  simp [hna, hnd]

/-!  ### URL well-formedness and the href roundtrip -/

/-- The shape invariant of every parsed or resolved URL in the model. -/
def WfURL (w : URLParts) : Prop :=
  (w.scheme = str "http" ∨ w.scheme = str "https")
  ∧ w.hostname ≠ []
  ∧ (∀ c ∈ w.hostname, hostChar c = true)
  ∧ (∃ p, w.pathname = '/' :: p)
  ∧ (∀ c ∈ w.pathname, pathChar c = true)
  ∧ (w.search = [] ∨ (∃ s, w.search = '?' :: s) ∨ (∃ s, w.search = '#' :: s))

theorem takeWhile_append_all {p : Char → Bool} {a : Str} (b : Str)
    (h : ∀ c ∈ a, p c = true) : (a ++ b).takeWhile p = a ++ b.takeWhile p := by
  induction a with
  | nil => rfl
  | cons c a ih =>
    rw [List.cons_append, List.takeWhile_cons,
      if_pos (h c (List.mem_cons_self _ _)), ih (fun d hd => h d (List.mem_cons_of_mem _ hd))]
    rfl

theorem dropWhile_head_not {p : Char → Bool} {l t : Str} {c : Char}
    (h : l.dropWhile p = c :: t) : p c = false := by
  induction l with
  | nil => simp at h
  | cons x xs ih =>
    rw [List.dropWhile_cons] at h
    by_cases hp : p x
    · rw [if_pos hp] at h
      exact ih h
    · rw [if_neg hp] at h
      cases h
      simpa using hp

theorem hostChar_false_cases {c : Char} (h : hostChar c = false) :
    c = '/' ∨ c = '?' ∨ c = '#' := by
  by_contra hcon
  push_neg at hcon
  rw [hostChar] at h
  simp [hcon.1, hcon.2.1, hcon.2.2] at h

theorem pathChar_false_cases {c : Char} (h : pathChar c = false) :
    c = '?' ∨ c = '#' := by
  by_contra hcon
  push_neg at hcon
  rw [pathChar] at h
  simp [hcon.1, hcon.2] at h

theorem parseAfterScheme_spec {sc rest : Str} {w : URLParts}
    (h : parseAfterScheme sc rest = some w) :
    w.scheme = sc
    ∧ w.hostname ≠ []
    ∧ (∀ c ∈ w.hostname, hostChar c = true)
    ∧ (∃ p, w.pathname = '/' :: p)
    ∧ (∀ c ∈ w.pathname, pathChar c = true)
    ∧ (w.search = [] ∨ (∃ s, w.search = '?' :: s) ∨ (∃ s, w.search = '#' :: s))
    ∧ (∀ c ∈ w.hostname, c ∈ rest)
    ∧ (∀ c ∈ w.pathname, c ∈ rest ∨ c = '/')
    ∧ (∀ c ∈ w.search, c ∈ rest) := by
  unfold parseAfterScheme at h
  by_cases hemp : List.isEmpty (rest.takeWhile hostChar) = true
  · rw [if_pos hemp] at h
    exact Option.noConfusion h
  · rw [if_neg hemp] at h
    rw [Option.some.injEq] at h
    subst h
    have hafter : rest.drop (rest.takeWhile hostChar).length = rest.dropWhile hostChar :=
      drop_takeWhile_length hostChar rest
    refine ⟨rfl, by simpa using hemp, fun c hc => List.mem_takeWhile_imp hc,
      ?_, ?_, ?_, fun c hc => mem_of_mem_takeWhile hc, ?_, ?_⟩
    · show ∃ p, (if List.isEmpty ((rest.drop (rest.takeWhile hostChar).length).takeWhile pathChar)
          then str "/"
          else (rest.drop (rest.takeWhile hostChar).length).takeWhile pathChar) = '/' :: p
      by_cases hpe : List.isEmpty ((rest.drop (rest.takeWhile hostChar).length).takeWhile pathChar)
      · rw [if_pos hpe]
        exact ⟨[], rfl⟩
      · rw [if_neg hpe]
        rw [hafter]
        rw [hafter] at hpe
        cases hpath : (rest.dropWhile hostChar).takeWhile pathChar with
        | nil => rw [hpath] at hpe; simp at hpe
        | cons c t =>
          have hct : rest.dropWhile hostChar = c :: ((rest.dropWhile hostChar).drop 1) := by
            cases hdw : rest.dropWhile hostChar with
            | nil => rw [hdw] at hpath; simp at hpath
            | cons d u =>
              rw [hdw, List.takeWhile_cons] at hpath
              by_cases hpd : pathChar d
              · rw [if_pos hpd] at hpath
                injection hpath with h1 h2
                rw [h1]
                rfl
              · rw [if_neg hpd] at hpath
                exact List.noConfusion hpath
          have hcfail : hostChar c = false := dropWhile_head_not hct
          have hcpath : pathChar c = true := by
            have := List.mem_takeWhile_imp (l := rest.dropWhile hostChar)
              (by rw [hpath]; exact List.mem_cons_self c t)
            exact this
          rcases hostChar_false_cases hcfail with rfl | rfl | rfl
          · exact ⟨t, rfl⟩
          · rw [pathChar] at hcpath; simp at hcpath
          · rw [pathChar] at hcpath; simp at hcpath
    · intro c hc
      by_cases hpe : List.isEmpty ((rest.drop (rest.takeWhile hostChar).length).takeWhile pathChar)
      · rw [if_pos hpe] at hc
        rcases List.mem_cons.mp hc with rfl | hx
        · rfl
        · simp [str] at hx
      · rw [if_neg hpe] at hc
        exact List.mem_takeWhile_imp hc
    · show (rest.drop (rest.takeWhile hostChar).length).drop
          ((rest.drop (rest.takeWhile hostChar).length).takeWhile pathChar).length = []
        ∨ _ ∨ _
      rw [hafter, drop_takeWhile_length]
      cases hdw : (rest.dropWhile hostChar).dropWhile pathChar with
      | nil => exact Or.inl rfl
      | cons c t =>
        have hcfail : pathChar c = false := dropWhile_head_not hdw
        rcases pathChar_false_cases hcfail with rfl | rfl
        · exact Or.inr (Or.inl ⟨t, rfl⟩)
        · exact Or.inr (Or.inr ⟨t, rfl⟩)
    · intro c hc
      by_cases hpe : List.isEmpty ((rest.drop (rest.takeWhile hostChar).length).takeWhile pathChar)
      · rw [if_pos hpe] at hc
        rcases List.mem_cons.mp hc with rfl | hx
        · exact Or.inr rfl
        · simp [str] at hx
      · rw [if_neg hpe] at hc
        exact Or.inl (List.drop_subset _ _ (mem_of_mem_takeWhile hc))
    · intro c hc
      have h1 : c ∈ rest.drop (rest.takeWhile hostChar).length :=
        List.drop_subset _ _ hc
      exact List.drop_subset _ _ h1

theorem parseURL_wf {s : Str} {w : URLParts} (h : parseURL s = some w) :
    WfURL w
    ∧ (∀ c ∈ w.hostname, c ∈ s)
    ∧ (∀ c ∈ w.pathname, c ∈ s ∨ c = '/')
    ∧ (∀ c ∈ w.search, c ∈ s) := by
  unfold parseURL at h
  by_cases h1 : strStartsWith s (str "http://") = true
  · rw [if_pos h1] at h
    obtain ⟨hsc, hh⟩ := And.intro (parseAfterScheme_spec h).1 (parseAfterScheme_spec h)
    refine ⟨⟨Or.inl hsc, hh.2.1, hh.2.2.1, hh.2.2.2.1, hh.2.2.2.2.1, hh.2.2.2.2.2.1⟩,
      fun c hc => List.drop_subset _ _ (hh.2.2.2.2.2.2.1 c hc),
      fun c hc => ?_,
      fun c hc => List.drop_subset _ _ (hh.2.2.2.2.2.2.2.2 c hc)⟩
    rcases hh.2.2.2.2.2.2.2.1 c hc with hm | hm
    · exact Or.inl (List.drop_subset _ _ hm)
    · exact Or.inr hm
  · rw [if_neg h1] at h
    by_cases h2 : strStartsWith s (str "https://") = true
    · rw [if_pos h2] at h
      obtain ⟨hsc, hh⟩ := And.intro (parseAfterScheme_spec h).1 (parseAfterScheme_spec h)
      refine ⟨⟨Or.inr hsc, hh.2.1, hh.2.2.1, hh.2.2.2.1, hh.2.2.2.2.1, hh.2.2.2.2.2.1⟩,
        fun c hc => List.drop_subset _ _ (hh.2.2.2.2.2.2.1 c hc),
        fun c hc => ?_,
        fun c hc => List.drop_subset _ _ (hh.2.2.2.2.2.2.2.2 c hc)⟩
      rcases hh.2.2.2.2.2.2.2.1 c hc with hm | hm
      · exact Or.inl (List.drop_subset _ _ hm)
      · exact Or.inr hm
    · rw [if_neg h2] at h
      exact Option.noConfusion h

theorem serializeURL_scheme_http {w : URLParts} (h : w.scheme = str "http") :
    serializeURL w = str "http://" ++ (w.hostname ++ (w.pathname ++ w.search)) := by
  unfold serializeURL
  rw [h]
  simp only [List.append_assoc]
  rfl

theorem serializeURL_scheme_https {w : URLParts} (h : w.scheme = str "https") :
    serializeURL w = str "https://" ++ (w.hostname ++ (w.pathname ++ w.search)) := by
  unfold serializeURL
  rw [h]
  simp only [List.append_assoc]
  rfl

theorem serializeURL_startsWith {w : URLParts} (h : WfURL w) :
    strStartsWith (serializeURL w) (str "http://") = true
    ∨ strStartsWith (serializeURL w) (str "https://") = true := by
  rcases h.1 with hsc | hsc
  · rw [serializeURL_scheme_http hsc]
    exact Or.inl (strStartsWith_append _ _)
  · rw [serializeURL_scheme_https hsc]
    exact Or.inr (strStartsWith_append _ _)

theorem not_startsWith_https_http (X : Str) :
    strStartsWith (str "https://" ++ X) (str "http://") = false := by
  by_contra hcon
  rw [Bool.not_eq_false] at hcon
  obtain ⟨t, ht⟩ := strStartsWith_iff.mp hcon
  have h4 := congrArg (fun l : Str => l[4]?) ht
  simp only at h4
  rw [List.getElem?_append_left (by decide), List.getElem?_append_left (by decide)] at h4
  exact absurd h4 (by decide)

theorem parseAfterScheme_exact {sc host path search : Str}
    (hhost : host ≠ []) (hhostc : ∀ c ∈ host, hostChar c = true)
    (hpath : ∃ p, path = '/' :: p) (hpathc : ∀ c ∈ path, pathChar c = true)
    (hsearch : search = [] ∨ (∃ s, search = '?' :: s) ∨ (∃ s, search = '#' :: s)) :
    parseAfterScheme sc (host ++ (path ++ search)) =
      some { scheme := sc, hostname := host, pathname := path, search := search } := by
  obtain ⟨p0, hp0⟩ := hpath
  have htake : (host ++ (path ++ search)).takeWhile hostChar = host := by
    rw [takeWhile_append_all _ hhostc, hp0, List.cons_append, List.takeWhile_cons,
      if_neg (by rw [hostChar]; simp)]
    simp
  have htakepath : (path ++ search).takeWhile pathChar = path := by
    rw [takeWhile_append_all _ hpathc]
    rcases hsearch with rfl | ⟨s0, hs0⟩ | ⟨s0, hs0⟩
    · simp
    · rw [hs0, List.takeWhile_cons, if_neg (by rw [pathChar]; simp)]
      simp
    · rw [hs0, List.takeWhile_cons, if_neg (by rw [pathChar]; simp)]
      simp
  simp only [parseAfterScheme]
  rw [htake, if_neg (by simpa using hhost), List.drop_left, htakepath,
    if_neg (by rw [hp0]; simp), List.drop_left]

theorem parseURL_serializeURL {w : URLParts} (h : WfURL w) :
    parseURL (serializeURL w) = some w := by
  obtain ⟨hsc, hhost, hhostc, hpath, hpathc, hsearch⟩ := h
  obtain ⟨scheme, hostname, pathname, search⟩ := w
  rcases hsc with hs | hs
  · rw [serializeURL_scheme_http hs]
    unfold parseURL
    rw [if_pos (strStartsWith_append _ _)]
    have hdrop : (str "http://" ++ (hostname ++ (pathname ++ search))).drop 7
        = hostname ++ (pathname ++ search) := by
      rw [show (7 : Nat) = (str "http://").length from rfl]
      exact List.drop_left _ _
    rw [hdrop, parseAfterScheme_exact hhost hhostc hpath hpathc hsearch]
    simp_all
  · rw [serializeURL_scheme_https hs]
    unfold parseURL
    rw [if_neg (by simp [not_startsWith_https_http])]
    rw [if_pos (strStartsWith_append _ _)]
    have hdrop : (str "https://" ++ (hostname ++ (pathname ++ search))).drop 8
        = hostname ++ (pathname ++ search) := by
      rw [show (8 : Nat) = (str "https://").length from rfl]
      exact List.drop_left _ _
    rw [hdrop, parseAfterScheme_exact hhost hhostc hpath hpathc hsearch]
    simp_all

theorem mem_serializeURL {c : Char} {w : URLParts} (hc : c ∈ serializeURL w) :
    c ∈ w.scheme ∨ c ∈ str "://" ∨ c ∈ w.hostname ∨ c ∈ w.pathname ∨ c ∈ w.search := by
  unfold serializeURL at hc
  simp only [List.append_assoc, List.mem_append] at hc
  tauto

theorem scheme_chars_sub {c : Char} {w : URLParts}
    (h : w.scheme = str "http" ∨ w.scheme = str "https")
    (hc : c ∈ w.scheme) : c ∈ str "https://" := by
  rcases h with h | h <;> rw [h] at hc
  · exact (by decide : ∀ c ∈ str "http", c ∈ str "https://") c hc
  · exact (by decide : ∀ c ∈ str "https", c ∈ str "https://") c hc

theorem dropWhile_ne_nil_of_mem {p : Char → Bool} {l : Str} {x : Char}
    (hx : x ∈ l) (hpx : p x = false) : l.dropWhile p ≠ [] := by
  induction l with
  | nil => simp at hx
  | cons c l ih =>
    rw [List.dropWhile_cons]
    rcases List.mem_cons.mp hx with rfl | hmem
    · rw [if_neg (by simp [hpx])]
      simp
    · by_cases hc : p c
      · rw [if_pos hc]
        exact ih hmem
      · rw [if_neg hc]
        simp

theorem dirOfPath_slash {p : Str} (hp : ∃ q, p = '/' :: q) :
    ∃ q, dirOfPath p = '/' :: q := by
  obtain ⟨q, rfl⟩ := hp
  have hne : dirOfPath ('/' :: q) ≠ [] := by
    unfold dirOfPath
    intro hcon
    rw [List.reverse_eq_nil_iff] at hcon
    exact dropWhile_ne_nil_of_mem (x := '/')
      (by rw [List.mem_reverse]; exact List.mem_cons_self _ _) (by simp) hcon
  obtain ⟨t, ht⟩ := dirOfPath_isPre ('/' :: q)
  cases hd : dirOfPath ('/' :: q) with
  | nil => exact absurd hd hne
  | cons d dir =>
    rw [hd, List.cons_append] at ht
    injection ht with h1 h2
    exact ⟨dir, by rw [h1]⟩

theorem resolveUrl_wf {u base r : Str} (h : resolveUrl u base = some r) :
    ∃ w, WfURL w ∧ r = serializeURL w
      ∧ (∀ c ∈ r, c ∈ u ∨ c ∈ base ∨ c ∈ str "https://") := by
  unfold resolveUrl at h
  by_cases habs : (strStartsWith u (str "http://") || strStartsWith u (str "https://")) = true
  · rw [if_pos habs] at h
    cases hp : parseURL u with
    | none => rw [hp] at h; exact Option.noConfusion h
    | some w =>
      rw [hp] at h
      dsimp only [Option.map] at h
      rw [Option.some.injEq] at h
      obtain ⟨hwf, hhost, hpath, hsearch⟩ := parseURL_wf hp
      refine ⟨w, hwf, h.symm, ?_⟩
      intro c hc
      rw [← h] at hc
      rcases mem_serializeURL hc with hm | hm | hm | hm | hm
      · exact Or.inr (Or.inr (scheme_chars_sub hwf.1 hm))
      · exact Or.inr (Or.inr ((by decide : ∀ c ∈ str "://", c ∈ str "https://") c hm))
      · exact Or.inl (hhost c hm)
      · rcases hpath c hm with hcu | rfl
        · exact Or.inl hcu
        · exact Or.inr (Or.inr (by decide))
      · exact Or.inl (hsearch c hm)
  · rw [if_neg habs] at h
    cases hb : parseURL base with
    | none => rw [hb] at h; exact Option.noConfusion h
    | some b =>
      rw [hb] at h
      dsimp only at h
      obtain ⟨hbwf, hbhost, hbpath, hbsearch⟩ := parseURL_wf hb
      have hsearchshape : (u.drop (u.takeWhile pathChar).length) = [] ∨
          (∃ s, (u.drop (u.takeWhile pathChar).length) = '?' :: s) ∨
          (∃ s, (u.drop (u.takeWhile pathChar).length) = '#' :: s) := by
        rw [drop_takeWhile_length]
        cases hdw : u.dropWhile pathChar with
        | nil => exact Or.inl rfl
        | cons c t =>
          rcases pathChar_false_cases (dropWhile_head_not hdw) with rfl | rfl
          · exact Or.inr (Or.inl ⟨t, rfl⟩)
          · exact Or.inr (Or.inr ⟨t, rfl⟩)
      have hsearchmem : ∀ c ∈ (u.drop (u.takeWhile pathChar).length), c ∈ u :=
        fun c hc => List.drop_subset _ _ hc
      by_cases hsl : strStartsWith u (str "/") = true
      · rw [if_pos hsl] at h
        rw [Option.some.injEq] at h
        obtain ⟨t, ht⟩ := strStartsWith_iff.mp hsl
        refine ⟨URLParts.mk b.scheme b.hostname (List.takeWhile pathChar u)
            (List.drop (List.takeWhile pathChar u).length u),
          ⟨hbwf.1, hbwf.2.1, hbwf.2.2.1, ?_, ?_, hsearchshape⟩, h.symm, ?_⟩
        · show ∃ p, u.takeWhile pathChar = '/' :: p
          rw [ht]
          rw [show (str "/") ++ t = '/' :: t from rfl, List.takeWhile_cons,
            if_pos (by rw [pathChar]; simp)]
          exact ⟨t.takeWhile pathChar, rfl⟩
        · exact fun c hc => List.mem_takeWhile_imp hc
        · intro c hc
          rw [← h] at hc
          rcases mem_serializeURL hc with hm | hm | hm | hm | hm
          · exact Or.inr (Or.inr (scheme_chars_sub hbwf.1 hm))
          · exact Or.inr (Or.inr ((by decide : ∀ c ∈ str "://", c ∈ str "https://") c hm))
          · exact Or.inr (Or.inl (hbhost c hm))
          · exact Or.inl (mem_of_mem_takeWhile hm)
          · exact Or.inl (hsearchmem c hm)
      · rw [if_neg hsl] at h
        rw [Option.some.injEq] at h
        obtain ⟨q0, hq0⟩ := dirOfPath_slash hbwf.2.2.2.1
        refine ⟨URLParts.mk b.scheme b.hostname
            (dirOfPath b.pathname ++ List.takeWhile pathChar u)
            (List.drop (List.takeWhile pathChar u).length u),
          ⟨hbwf.1, hbwf.2.1, hbwf.2.2.1, ?_, ?_, hsearchshape⟩, h.symm, ?_⟩
        · show ∃ p, dirOfPath b.pathname ++ u.takeWhile pathChar = '/' :: p
          rw [hq0, List.cons_append]
          exact ⟨q0 ++ u.takeWhile pathChar, rfl⟩
        · intro c hc
          rcases List.mem_append.mp hc with hm | hm
          · exact hbwf.2.2.2.2.1 c (mem_of_mem_dirOfPath hm)
          · exact List.mem_takeWhile_imp hm
        · intro c hc
          rw [← h] at hc
          rcases mem_serializeURL hc with hm | hm | hm | hm | hm
          · exact Or.inr (Or.inr (scheme_chars_sub hbwf.1 hm))
          · exact Or.inr (Or.inr ((by decide : ∀ c ∈ str "://", c ∈ str "https://") c hm))
          · exact Or.inr (Or.inl (hbhost c hm))
          · rcases List.mem_append.mp hm with hm2 | hm2
            · rcases hbpath c (mem_of_mem_dirOfPath hm2) with hcb | rfl
              · exact Or.inr (Or.inl hcb)
              · exact Or.inr (Or.inr (by decide))
            · exact Or.inl (mem_of_mem_takeWhile hm2)
          · exact Or.inl (hsearchmem c hm)

theorem resolveUrl_spec {u base r : Str} (h : resolveUrl u base = some r) :
    (strStartsWith r (str "http://") = true ∨ strStartsWith r (str "https://") = true)
    ∧ (∀ b2, resolveUrl r b2 = some r)
    ∧ (∀ c ∈ r, c ∈ u ∨ c ∈ base ∨ c ∈ str "https://")
    ∧ r ≠ [] := by
  obtain ⟨w, hwf, rfl, hmem⟩ := resolveUrl_wf h
  have hstart := serializeURL_startsWith hwf
  refine ⟨hstart, ?_, hmem, ?_⟩
  · intro b2
    unfold resolveUrl
    rw [if_pos (by rcases hstart with hs | hs <;> simp [hs])]
    rw [parseURL_serializeURL hwf]
    rfl
  · rcases hstart with hs | hs <;>
      obtain ⟨t, ht⟩ := strStartsWith_iff.mp hs <;>
      rw [ht] <;> simp [str]

/-!  ### srcset rewrite: computation lemmas and fixpoint -/

theorem isSkippableUrl_of_abs {r : Str}
    (h : strStartsWith r (str "http://") = true
      ∨ strStartsWith r (str "https://") = true) :
    isSkippableUrl r = true := by
  unfold isSkippableUrl
  rcases h with hs | hs <;> simp [hs]

theorem rewriteSrcsetPart_nil {nb part : Str}
    (hsp : splitWsJs (jsTrim part) = []) :
    rewriteSrcsetPart nb part = part := by
  simp only [rewriteSrcsetPart, hsp]

theorem rewriteSrcsetPart_empty {nb part url : Str} {rest : List Str}
    (hsp : splitWsJs (jsTrim part) = url :: rest)
    (h1 : List.isEmpty url = true) :
    rewriteSrcsetPart nb part = part := by
  simp only [rewriteSrcsetPart, hsp]
  rw [if_pos h1]

theorem rewriteSrcsetPart_skippable {nb part url : Str} {rest : List Str}
    (hsp : splitWsJs (jsTrim part) = url :: rest)
    (h1 : List.isEmpty url = false) (h2 : isSkippableUrl url = true) :
    rewriteSrcsetPart nb part = part := by
  simp only [rewriteSrcsetPart, hsp]
  rw [if_neg (by simp [h1]), if_pos h2]

theorem rewriteSrcsetPart_resolve_none {nb part url : Str} {rest : List Str}
    (hsp : splitWsJs (jsTrim part) = url :: rest)
    (h1 : List.isEmpty url = false) (h2 : isSkippableUrl url = false)
    (h3 : resolveUrl url nb = none) :
    rewriteSrcsetPart nb part = part := by
  simp only [rewriteSrcsetPart, hsp]
  rw [if_neg (by simp [h1]), if_neg (by simp [h2]), h3]

theorem rewriteSrcsetPart_resolve_single {nb part url a : Str}
    (hsp : splitWsJs (jsTrim part) = [url])
    (h1 : List.isEmpty url = false) (h2 : isSkippableUrl url = false)
    (h3 : resolveUrl url nb = some a) :
    rewriteSrcsetPart nb part = a := by
  simp only [rewriteSrcsetPart, hsp]
  rw [if_neg (by simp [h1]), if_neg (by simp [h2]), h3]

theorem rewriteSrcsetPart_resolve_descr {nb part url a d : Str} {rest2 : List Str}
    (hsp : splitWsJs (jsTrim part) = url :: d :: rest2)
    (h1 : List.isEmpty url = false) (h2 : isSkippableUrl url = false)
    (h3 : resolveUrl url nb = some a) :
    rewriteSrcsetPart nb part = a ++ str " " ++ d := by
  simp only [rewriteSrcsetPart, hsp]
  rw [if_neg (by simp [h1]), if_neg (by simp [h2]), h3]

theorem rewriteSrcsetPart_spec {nb v : Str} (hnb : baseOk nb) (hv : commaFree v) :
    rewriteSrcsetPart nb (rewriteSrcsetPart nb v) = rewriteSrcsetPart nb v
    ∧ commaFree (rewriteSrcsetPart nb v) := by
  cases hsp : splitWsJs (jsTrim v) with
  | nil =>
    have hw : rewriteSrcsetPart nb v = v := rewriteSrcsetPart_nil hsp
    exact ⟨by rw [hw]; exact hw, by rw [hw]; exact hv⟩
  | cons url rest =>
    by_cases hurl0 : List.isEmpty url = true
    · have hw : rewriteSrcsetPart nb v = v := rewriteSrcsetPart_empty hsp hurl0
      exact ⟨by rw [hw]; exact hw, by rw [hw]; exact hv⟩
    · have hurl : List.isEmpty url = false := by simpa using hurl0
      by_cases hskip0 : isSkippableUrl url = true
      · have hw : rewriteSrcsetPart nb v = v :=
          rewriteSrcsetPart_skippable hsp hurl hskip0
        exact ⟨by rw [hw]; exact hw, by rw [hw]; exact hv⟩
      · have hskip : isSkippableUrl url = false := by simpa using hskip0
        cases hres : resolveUrl url nb with
        | none =>
          have hw := rewriteSrcsetPart_resolve_none hsp hurl hskip hres
          exact ⟨by rw [hw]; exact hw, by rw [hw]; exact hv⟩
        | some abs =>
          have htrimne : jsTrim v ≠ [] := by
            intro hcon
            rw [hcon] at hsp
            rw [splitWsJs, if_pos (by simp)] at hsp
            injection hsp with hu _
            rw [← hu] at hurl
            simp at hurl
          have hsp' : wsSplit (jsTrim v) = url :: rest := by
            rw [splitWsJs, if_neg (by simpa using htrimne)] at hsp
            exact hsp
          have hurltok := mem_wsSplit_token (t := url)
            (by rw [hsp']; exact List.mem_cons_self _ _)
          have hurlP : ∀ c ∈ url, c ≠ ',' ∧ isWs c = false := fun c hc =>
            ⟨hv c (mem_of_mem_jsTrim (hurltok.2 c hc).2), (hurltok.2 c hc).1⟩
          obtain ⟨habs_start, habs_fix, habs_mem, habs_ne⟩ := resolveUrl_spec hres
          have habsP : ∀ c ∈ abs, c ≠ ',' ∧ isWs c = false := by
            intro c hc
            rcases habs_mem c hc with hm | hm | hm
            · exact hurlP c hm
            · exact hnb c hm
            · exact (by decide : ∀ c ∈ str "https://", c ≠ ',' ∧ isWs c = false) c hm
          have habs_trim : jsTrim abs = abs :=
            jsTrim_of_wsFree (fun c hc => (habsP c hc).2)
          have habs_split : splitWsJs abs = [abs] :=
            splitWsJs_single habs_ne (fun c hc => (habsP c hc).2)
          have habs_skip : isSkippableUrl abs = true := isSkippableUrl_of_abs habs_start
          have habs_empty : List.isEmpty abs = false := by simpa using habs_ne
          cases rest with
          | nil =>
            have hw := rewriteSrcsetPart_resolve_single hsp hurl hskip hres
            refine ⟨?_, ?_⟩
            · rw [hw]
              exact rewriteSrcsetPart_skippable (by rw [habs_trim, habs_split])
                habs_empty habs_skip
            · rw [hw]
              exact fun c hc => (habsP c hc).1
          | cons descriptor rest2 =>
            have hdtok := mem_wsSplit_token (t := descriptor)
              (by rw [hsp']; exact List.mem_cons_of_mem _ (List.mem_cons_self _ _))
            have hdP : ∀ c ∈ descriptor, c ≠ ',' ∧ isWs c = false := fun c hc =>
              ⟨hv c (mem_of_mem_jsTrim (hdtok.2 c hc).2), (hdtok.2 c hc).1⟩
            have hw := rewriteSrcsetPart_resolve_descr hsp hurl hskip hres
            have hwtrim : jsTrim (abs ++ str " " ++ descriptor)
                = abs ++ str " " ++ descriptor := by
              apply jsTrim_eq_self
              · intro c hc
                cases habs : abs with
                | nil => exact absurd habs habs_ne
                | cons a0 absTail =>
                  rw [habs, List.cons_append, List.cons_append, List.head?_cons,
                    Option.some.injEq] at hc
                  rw [← hc]
                  exact (habsP a0 (by rw [habs]; exact List.mem_cons_self _ _)).2
              · intro c hc
                rw [List.getLast?_append_of_ne_nil _ hdtok.1] at hc
                exact (hdP c (getLast?_mem hc)).2
            have hwsplit : splitWsJs (abs ++ str " " ++ descriptor)
                = [abs, descriptor] :=
              splitWsJs_pair habs_ne (fun c hc => (habsP c hc).2) hdtok.1
                (fun c hc => (hdtok.2 c hc).1)
            refine ⟨?_, ?_⟩
            · rw [hw]
              exact rewriteSrcsetPart_skippable (by rw [hwtrim, hwsplit])
                habs_empty habs_skip
            · rw [hw]
              intro c hc
              rw [List.append_assoc, List.mem_append] at hc
              rcases hc with hm | hm
              · exact (habsP c hm).1
              · rw [List.mem_append] at hm
                rcases hm with hm | hm
                · rcases List.mem_singleton.mp (by simpa [str] using hm) with rfl
                  decide
                · exact (hdP c hm).1

theorem rewriteSrcset_single {nb v : Str} (hv : commaFree v) :
    rewriteSrcset nb v = rewriteSrcsetPart nb v := by
  rw [rewriteSrcset, splitOnChar_of_no_sep hv]
  rfl

theorem rewriteSrcset_fixpoint {nb v : Str} (hnb : baseOk nb) (hv : commaFree v) :
    rewriteSrcset nb (rewriteSrcset nb v) = rewriteSrcset nb v := by
  obtain ⟨hfix, hcf⟩ := rewriteSrcsetPart_spec hnb hv
  rw [rewriteSrcset_single hv, rewriteSrcset_single hcf, hfix]

/-!  ### DOM attribute lemmas -/

theorem tag_setAttribute (el : DomElement) (n v : Str) :
    (setAttribute el n v).tag = el.tag := by
  unfold setAttribute
  by_cases h : hasAttribute el n = true
  · rw [if_pos h]
  · rw [if_neg h]

theorem find?_value_map_upd {l : List (Str × Str)} {n v : Str}
    (h : l.any (fun a => a.1 = n) = true) :
    ((l.map (fun a => if a.1 = n then (a.1, v) else a)).find?
      (fun a => a.1 = n)).map (fun a => a.2) = some v := by
  induction l with
  | nil => simp at h
  | cons a l ih =>
    by_cases ha : a.1 = n
    · simp [List.find?_cons, ha]
    · simp only [List.map_cons, if_neg ha, List.find?_cons,
        show decide (a.1 = n) = false from by simpa using ha]
      exact ih (by simpa [ha] using h)

theorem find?_append_single {l : List (Str × Str)} {n v : Str}
    (h : l.any (fun a => a.1 = n) = false) :
    ((l ++ [(n, v)]).find? (fun a => a.1 = n)).map (fun a => a.2) = some v := by
  induction l with
  | nil => simp [List.find?_cons]
  | cons a l ih =>
    rw [List.any_cons, Bool.or_eq_false_iff] at h
    simp only [List.cons_append, List.find?_cons, h.1]
    exact ih h.2

theorem find?_map_upd_ne {l : List (Str × Str)} {n m v : Str} (hne : ¬m = n) :
    (l.map (fun a => if a.1 = n then (a.1, v) else a)).find? (fun a => a.1 = m)
      = l.find? (fun a => a.1 = m) := by
  induction l with
  | nil => rfl
  | cons a l ih =>
    by_cases han : a.1 = n
    · have ham : ¬a.1 = m := fun hc => hne (by rw [← hc, han])
      simp only [List.map_cons, if_pos han, List.find?_cons,
        show decide ((a.1, v).1 = m) = false from by simpa using ham,
        show decide (a.1 = m) = false from by simpa using ham]
      exact ih
    · by_cases ham : a.1 = m
      · simp only [List.map_cons, if_neg han, List.find?_cons,
          show decide (a.1 = m) = true from by simpa using ham]
      · simp only [List.map_cons, if_neg han, List.find?_cons,
          show decide (a.1 = m) = false from by simpa using ham]
        exact ih

theorem find?_append_single_ne {l : List (Str × Str)} {n m v : Str} (hne : ¬m = n) :
    ((l ++ [(n, v)]).find? (fun a => a.1 = m)) = l.find? (fun a => a.1 = m) := by
  induction l with
  | nil =>
    simp only [List.nil_append, List.find?_cons,
      show decide ((n, v).1 = m) = false from by simp; exact fun h => hne h.symm]
  | cons a l ih =>
    by_cases ham : a.1 = m
    · simp only [List.cons_append, List.find?_cons,
        show decide (a.1 = m) = true from by simpa using ham]
    · simp only [List.cons_append, List.find?_cons,
        show decide (a.1 = m) = false from by simpa using ham]
      exact ih

theorem getAttribute_setAttribute_same (el : DomElement) (n v : Str) :
    getAttribute (setAttribute el n v) n = some v := by
  unfold setAttribute getAttribute hasAttribute
  by_cases h : el.attrs.any (fun a => a.1 = n) = true
  · rw [if_pos h]
    exact find?_value_map_upd h
  · rw [if_neg h]
    exact find?_append_single (by simp only [Bool.not_eq_true] at h; exact h)

theorem getAttribute_setAttribute_ne (el : DomElement) {n m : Str} (v : Str)
    (hne : ¬m = n) :
    getAttribute (setAttribute el n v) m = getAttribute el m := by
  unfold setAttribute getAttribute hasAttribute
  by_cases h : el.attrs.any (fun a => a.1 = n) = true
  · rw [if_pos h, find?_map_upd_ne hne]
  · rw [if_neg h, find?_append_single_ne hne]

theorem any_map_upd {l : List (Str × Str)} {n m v : Str} :
    (l.map (fun a => if a.1 = n then (a.1, v) else a)).any (fun a => a.1 = m)
      = l.any (fun a => a.1 = m) := by
  induction l with
  | nil => rfl
  | cons a l ih =>
    by_cases han : a.1 = n
    · rw [List.map_cons, if_pos han, List.any_cons, List.any_cons, ih]
    · rw [List.map_cons, if_neg han, List.any_cons, List.any_cons, ih]

theorem hasAttribute_setAttribute_same (el : DomElement) (n v : Str) :
    hasAttribute (setAttribute el n v) n = true := by
  unfold setAttribute
  by_cases h : hasAttribute el n = true
  · rw [if_pos h]
    show (el.attrs.map _).any _ = true
    rw [any_map_upd]
    exact h
  · rw [if_neg h]
    show (el.attrs ++ [(n, v)]).any (fun a => a.1 = n) = true
    rw [List.any_append]
    simp

theorem hasAttribute_setAttribute_ne (el : DomElement) {n m : Str} (v : Str)
    (hne : ¬m = n) :
    hasAttribute (setAttribute el n v) m = hasAttribute el m := by
  unfold setAttribute
  by_cases h : hasAttribute el n = true
  · rw [if_pos h]
    show (el.attrs.map _).any _ = _
    rw [any_map_upd]
    rfl
  · rw [if_neg h]
    show (el.attrs ++ [(n, v)]).any (fun a => a.1 = m) = hasAttribute el m
    rw [List.any_append]
    simp only [List.any_cons, List.any_nil, Bool.or_false]
    rw [show (decide (n = m)) = false from by simp; exact fun hc => hne hc.symm]
    simp [hasAttribute]

theorem map_upd_id {l : List (Str × Str)} {n v : Str}
    (h : ∀ a ∈ l, a.1 = n → a.2 = v) :
    l.map (fun a => if a.1 = n then (a.1, v) else a) = l := by
  induction l with
  | nil => rfl
  | cons a l ih =>
    rw [List.map_cons, ih (fun b hb => h b (List.mem_cons_of_mem _ hb))]
    by_cases han : a.1 = n
    · rw [if_pos han]
      have := h a (List.mem_cons_self _ _) han
      rw [List.cons.injEq]
      exact ⟨by rw [← this], rfl⟩
    · rw [if_neg han]

theorem attrs_setAttribute_all {el : DomElement} {n v : Str} :
    ∀ a ∈ (setAttribute el n v).attrs, a.1 = n → a.2 = v := by
  unfold setAttribute hasAttribute
  by_cases h : el.attrs.any (fun a => a.1 = n) = true
  · rw [if_pos h]
    intro a ha han
    rw [List.mem_map] at ha
    obtain ⟨b, hb, hba⟩ := ha
    by_cases hbn : b.1 = n
    · rw [if_pos hbn] at hba
      rw [← hba]
    · rw [if_neg hbn] at hba
      rw [← hba] at han
      exact absurd han hbn
  · rw [if_neg h]
    intro a ha han
    rw [List.mem_append] at ha
    rcases ha with hm | hm
    · have h2 : el.attrs.any (fun a => a.1 = n) = false := by
        simp only [Bool.not_eq_true] at h
        exact h
      have := List.any_eq_false.mp h2 a hm
      exact absurd han (by simpa using this)
    · rcases List.mem_singleton.mp hm with rfl
      rfl

theorem setAttribute_setAttribute_same (el : DomElement) (n v : Str) :
    setAttribute (setAttribute el n v) n v = setAttribute el n v := by
  have hhas := hasAttribute_setAttribute_same el n v
  conv_lhs => rw [setAttribute]
  rw [if_pos hhas, map_upd_id attrs_setAttribute_all]

/-!  ### Per-pass computation lemmas -/

theorem updateImgSrc_not_img {nb : Str} {el : DomElement}
    (h : ¬el.tag = str "img") : updateImgSrc nb el = el := by
  unfold updateImgSrc
  rw [if_neg h]

theorem updateImgSrc_no_attr {nb : Str} {el : DomElement}
    (hga : getAttribute el (str "src") = none) : updateImgSrc nb el = el := by
  unfold updateImgSrc
  by_cases h : el.tag = str "img"
  · rw [if_pos h, hga]
  · rw [if_neg h]

theorem updateImgSrc_empty {nb : Str} {el : DomElement} {src0 : Str}
    (hga : getAttribute el (str "src") = some src0)
    (hemp : List.isEmpty src0 = true) : updateImgSrc nb el = el := by
  unfold updateImgSrc
  by_cases h : el.tag = str "img"
  · rw [if_pos h, hga]
    dsimp only
    rw [if_pos hemp]
  · rw [if_neg h]

theorem updateImgSrc_skippable {nb : Str} {el : DomElement} {src0 : Str}
    (hga : getAttribute el (str "src") = some src0)
    (hemp : List.isEmpty src0 = false)
    (hskip : isSkippableUrl src0 = true) : updateImgSrc nb el = el := by
  unfold updateImgSrc
  by_cases h : el.tag = str "img"
  · rw [if_pos h, hga]
    dsimp only
    rw [if_neg (by simp [hemp]), if_pos hskip]
  · rw [if_neg h]

theorem updateImgSrc_resolve_none {nb : Str} {el : DomElement} {src0 : Str}
    (hga : getAttribute el (str "src") = some src0)
    (hemp : List.isEmpty src0 = false)
    (hskip : isSkippableUrl src0 = false)
    (hres : resolveUrl src0 nb = none) : updateImgSrc nb el = el := by
  unfold updateImgSrc
  by_cases h : el.tag = str "img"
  · rw [if_pos h, hga]
    dsimp only
    rw [if_neg (by simp [hemp]), if_neg (by simp [hskip]), hres]
  · rw [if_neg h]

theorem updateImgSrc_resolve_some {nb : Str} {el : DomElement} {src0 abs : Str}
    (himg : el.tag = str "img")
    (hga : getAttribute el (str "src") = some src0)
    (hemp : List.isEmpty src0 = false)
    (hskip : isSkippableUrl src0 = false)
    (hres : resolveUrl src0 nb = some abs) :
    updateImgSrc nb el = setAttribute el (str "src") abs := by
  unfold updateImgSrc
  rw [if_pos himg, hga]
  dsimp only
  rw [if_neg (by simp [hemp]), if_neg (by simp [hskip]), hres]

theorem updateImgSrcset_not_img {nb : Str} {el : DomElement}
    (h : ¬el.tag = str "img") : updateImgSrcset nb el = el := by
  unfold updateImgSrcset
  rw [if_neg h]

theorem updateImgSrcset_no_attr {nb : Str} {el : DomElement}
    (hga : getAttribute el (str "srcset") = none) : updateImgSrcset nb el = el := by
  unfold updateImgSrcset
  by_cases h : el.tag = str "img"
  · rw [if_pos h, hga]
  · rw [if_neg h]

theorem updateImgSrcset_empty {nb : Str} {el : DomElement} {v : Str}
    (hga : getAttribute el (str "srcset") = some v)
    (hemp : List.isEmpty v = true) : updateImgSrcset nb el = el := by
  unfold updateImgSrcset
  by_cases h : el.tag = str "img"
  · rw [if_pos h, hga]
    dsimp only
    rw [if_pos hemp]
  · rw [if_neg h]

theorem updateImgSrcset_rewrite {nb : Str} {el : DomElement} {v : Str}
    (himg : el.tag = str "img")
    (hga : getAttribute el (str "srcset") = some v)
    (hemp : List.isEmpty v = false) :
    updateImgSrcset nb el = setAttribute el (str "srcset") (rewriteSrcset nb v) := by
  unfold updateImgSrcset
  rw [if_pos himg, hga]
  dsimp only
  rw [if_neg (by simp [hemp])]

theorem updateSourceSrcset_not_source {nb : Str} {el : DomElement}
    (h : ¬el.tag = str "source") : updateSourceSrcset nb el = el := by
  unfold updateSourceSrcset
  rw [if_neg h]

theorem updateSourceSrcset_no_attr {nb : Str} {el : DomElement}
    (hga : getAttribute el (str "srcset") = none) :
    updateSourceSrcset nb el = el := by
  unfold updateSourceSrcset
  by_cases h : el.tag = str "source"
  · rw [if_pos h, hga]
  · rw [if_neg h]

theorem updateSourceSrcset_empty {nb : Str} {el : DomElement} {v : Str}
    (hga : getAttribute el (str "srcset") = some v)
    (hemp : List.isEmpty v = true) : updateSourceSrcset nb el = el := by
  unfold updateSourceSrcset
  by_cases h : el.tag = str "source"
  · rw [if_pos h, hga]
    dsimp only
    rw [if_pos hemp]
  · rw [if_neg h]

theorem updateSourceSrcset_rewrite {nb : Str} {el : DomElement} {v : Str}
    (hsrc : el.tag = str "source")
    (hga : getAttribute el (str "srcset") = some v)
    (hemp : List.isEmpty v = false) :
    updateSourceSrcset nb el = setAttribute el (str "srcset") (rewriteSrcset nb v) := by
  unfold updateSourceSrcset
  rw [if_pos hsrc, hga]
  dsimp only
  rw [if_neg (by simp [hemp])]

theorem updateSvgHref_not_image {nb : Str} {el : DomElement}
    (h : ¬el.tag = str "image") : updateSvgHref nb el = el := by
  unfold updateSvgHref
  rw [if_neg h]

theorem updateSvgHref_no_attrs {nb : Str} {el : DomElement}
    (h : (hasAttribute el (str "href") || hasAttribute el (str "xlink:href")) = false) :
    updateSvgHref nb el = el := by
  unfold updateSvgHref
  by_cases ht : el.tag = str "image"
  · rw [if_pos ht, if_neg (by simp [h])]
  · rw [if_neg ht]

theorem updateSvgHref_empty {nb : Str} {el : DomElement}
    (hemp : List.isEmpty (svgHrefValue el) = true) :
    updateSvgHref nb el = el := by
  unfold updateSvgHref
  by_cases ht : el.tag = str "image"
  · rw [if_pos ht]
    by_cases hhas : (hasAttribute el (str "href") || hasAttribute el (str "xlink:href")) = true
    · rw [if_pos hhas]
      dsimp only
      rw [if_pos hemp]
    · rw [if_neg hhas]
  · rw [if_neg ht]

theorem updateSvgHref_skippable {nb : Str} {el : DomElement}
    (hemp : List.isEmpty (svgHrefValue el) = false)
    (hskip : isSkippableUrl (svgHrefValue el) = true) :
    updateSvgHref nb el = el := by
  unfold updateSvgHref
  by_cases ht : el.tag = str "image"
  · rw [if_pos ht]
    by_cases hhas : (hasAttribute el (str "href") || hasAttribute el (str "xlink:href")) = true
    · rw [if_pos hhas]
      dsimp only
      rw [if_neg (by simp [hemp]), if_pos hskip]
    · rw [if_neg hhas]
  · rw [if_neg ht]

theorem updateSvgHref_resolve_none {nb : Str} {el : DomElement}
    (hemp : List.isEmpty (svgHrefValue el) = false)
    (hskip : isSkippableUrl (svgHrefValue el) = false)
    (hres : resolveUrl (svgHrefValue el) nb = none) :
    updateSvgHref nb el = el := by
  unfold updateSvgHref
  by_cases ht : el.tag = str "image"
  · rw [if_pos ht]
    by_cases hhas : (hasAttribute el (str "href") || hasAttribute el (str "xlink:href")) = true
    · rw [if_pos hhas]
      dsimp only
      rw [if_neg (by simp [hemp]), if_neg (by simp [hskip]), hres]
    · rw [if_neg hhas]
  · rw [if_neg ht]

theorem updateSvgHref_resolve_some {nb abs : Str} {el : DomElement}
    (htag : el.tag = str "image")
    (hhas : (hasAttribute el (str "href") || hasAttribute el (str "xlink:href")) = true)
    (hemp : List.isEmpty (svgHrefValue el) = false)
    (hskip : isSkippableUrl (svgHrefValue el) = false)
    (hres : resolveUrl (svgHrefValue el) nb = some abs) :
    updateSvgHref nb el =
      (let el1 := if hasAttribute el (str "href")
        then setAttribute el (str "href") abs else el
      if hasAttribute el1 (str "xlink:href")
        then setAttribute el1 (str "xlink:href") abs else el1) := by
  unfold updateSvgHref
  rw [if_pos htag, if_pos hhas]
  dsimp only
  rw [if_neg (by simp [hemp]), if_neg (by simp [hskip]), hres]

/-!  ### Tag and attribute invariance of the passes -/

theorem tag_updateImgSrc (nb : Str) (el : DomElement) :
    (updateImgSrc nb el).tag = el.tag := by
  unfold updateImgSrc
  repeat' split
  all_goals first | rfl | exact tag_setAttribute _ _ _

theorem tag_updateImgSrcset (nb : Str) (el : DomElement) :
    (updateImgSrcset nb el).tag = el.tag := by
  unfold updateImgSrcset
  repeat' split
  all_goals first | rfl | exact tag_setAttribute _ _ _

theorem tag_updateSvgHref (nb : Str) (el : DomElement) :
    (updateSvgHref nb el).tag = el.tag := by
  unfold updateSvgHref
  dsimp only
  repeat' split
  all_goals simp [tag_setAttribute]

theorem tag_updateSourceSrcset (nb : Str) (el : DomElement) :
    (updateSourceSrcset nb el).tag = el.tag := by
  unfold updateSourceSrcset
  repeat' split
  all_goals first | rfl | exact tag_setAttribute _ _ _

theorem srcset_updateImgSrc (nb : Str) (el : DomElement) :
    getAttribute (updateImgSrc nb el) (str "srcset")
      = getAttribute el (str "srcset") := by
  unfold updateImgSrc
  repeat' split
  all_goals first | rfl | exact getAttribute_setAttribute_ne _ _ (by decide)

theorem src_updateImgSrcset (nb : Str) (el : DomElement) :
    getAttribute (updateImgSrcset nb el) (str "src")
      = getAttribute el (str "src") := by
  unfold updateImgSrcset
  repeat' split
  all_goals first | rfl | exact getAttribute_setAttribute_ne _ _ (by decide)

/-!  ### Per-pass stability -/

theorem getAttribute_eq_none {el : DomElement} {n : Str}
    (h : hasAttribute el n = false) : getAttribute el n = none := by
  unfold getAttribute
  unfold hasAttribute at h
  rw [List.find?_eq_none.mpr (fun a ha => by simpa using List.any_eq_false.mp h a ha)]
  rfl

theorem updateImgSrc_stable (nb : Str) (el x : DomElement)
    (htag : x.tag = el.tag)
    (hsrc : getAttribute x (str "src")
      = getAttribute (updateImgSrc nb el) (str "src")) :
    updateImgSrc nb x = x := by
  by_cases himg : el.tag = str "img"
  · cases hga : getAttribute el (str "src") with
    | none =>
      rw [updateImgSrc_no_attr hga, hga] at hsrc
      exact updateImgSrc_no_attr hsrc
    | some src0 =>
      by_cases hemp : List.isEmpty src0 = true
      · rw [updateImgSrc_empty hga hemp, hga] at hsrc
        exact updateImgSrc_empty hsrc hemp
      · have hemp2 : List.isEmpty src0 = false := by simpa using hemp
        by_cases hskip : isSkippableUrl src0 = true
        · rw [updateImgSrc_skippable hga hemp2 hskip, hga] at hsrc
          exact updateImgSrc_skippable hsrc hemp2 hskip
        · have hskip2 : isSkippableUrl src0 = false := by simpa using hskip
          cases hres : resolveUrl src0 nb with
          | none =>
            rw [updateImgSrc_resolve_none hga hemp2 hskip2 hres, hga] at hsrc
            exact updateImgSrc_resolve_none hsrc hemp2 hskip2 hres
          | some abs =>
            rw [updateImgSrc_resolve_some himg hga hemp2 hskip2 hres,
              getAttribute_setAttribute_same] at hsrc
            obtain ⟨habs_start, _, _, habs_ne⟩ := resolveUrl_spec hres
            exact updateImgSrc_skippable hsrc (by simpa using habs_ne)
              (isSkippableUrl_of_abs habs_start)
  · exact updateImgSrc_not_img (by rw [htag]; exact himg)

theorem updateImgSrcset_idem (nb : Str) (el : DomElement) (hnb : baseOk nb)
    (hv : ∀ v, getAttribute el (str "srcset") = some v → commaFree v) :
    updateImgSrcset nb (updateImgSrcset nb el) = updateImgSrcset nb el := by
  by_cases himg : el.tag = str "img"
  · cases hga : getAttribute el (str "srcset") with
    | none =>
      have h : updateImgSrcset nb el = el := updateImgSrcset_no_attr hga
      rw [h]
      exact h
    | some v =>
      by_cases hemp : List.isEmpty v = true
      · have h : updateImgSrcset nb el = el := updateImgSrcset_empty hga hemp
        rw [h]
        exact h
      · have hemp2 : List.isEmpty v = false := by simpa using hemp
        have h1 : updateImgSrcset nb el
            = setAttribute el (str "srcset") (rewriteSrcset nb v) :=
          updateImgSrcset_rewrite himg hga hemp2
        have hfix := rewriteSrcset_fixpoint hnb (hv v hga)
        rw [h1]
        have htag2 : (setAttribute el (str "srcset") (rewriteSrcset nb v)).tag
            = str "img" := by rw [tag_setAttribute]; exact himg
        have hga2 := getAttribute_setAttribute_same el (str "srcset") (rewriteSrcset nb v)
        by_cases hwemp : List.isEmpty (rewriteSrcset nb v) = true
        · exact updateImgSrcset_empty hga2 hwemp
        · rw [updateImgSrcset_rewrite htag2 hga2 (by simpa using hwemp), hfix]
          exact setAttribute_setAttribute_same el _ _
  · have h : updateImgSrcset nb el = el := updateImgSrcset_not_img himg
    rw [h]
    exact h

theorem updateSourceSrcset_idem (nb : Str) (el : DomElement) (hnb : baseOk nb)
    (hv : ∀ v, getAttribute el (str "srcset") = some v → commaFree v) :
    updateSourceSrcset nb (updateSourceSrcset nb el) = updateSourceSrcset nb el := by
  by_cases hsrc : el.tag = str "source"
  · cases hga : getAttribute el (str "srcset") with
    | none =>
      have h : updateSourceSrcset nb el = el := updateSourceSrcset_no_attr hga
      rw [h]
      exact h
    | some v =>
      by_cases hemp : List.isEmpty v = true
      · have h : updateSourceSrcset nb el = el := updateSourceSrcset_empty hga hemp
        rw [h]
        exact h
      · have hemp2 : List.isEmpty v = false := by simpa using hemp
        have h1 : updateSourceSrcset nb el
            = setAttribute el (str "srcset") (rewriteSrcset nb v) :=
          updateSourceSrcset_rewrite hsrc hga hemp2
        have hfix := rewriteSrcset_fixpoint hnb (hv v hga)
        rw [h1]
        have htag2 : (setAttribute el (str "srcset") (rewriteSrcset nb v)).tag
            = str "source" := by rw [tag_setAttribute]; exact hsrc
        have hga2 := getAttribute_setAttribute_same el (str "srcset") (rewriteSrcset nb v)
        by_cases hwemp : List.isEmpty (rewriteSrcset nb v) = true
        · exact updateSourceSrcset_empty hga2 hwemp
        · rw [updateSourceSrcset_rewrite htag2 hga2 (by simpa using hwemp), hfix]
          exact setAttribute_setAttribute_same el _ _
  · have h : updateSourceSrcset nb el = el := updateSourceSrcset_not_source hsrc
    rw [h]
    exact h

theorem svgHrefValue_of_href {el : DomElement} {abs : Str}
    (h : getAttribute el (str "href") = some abs)
    (hne : List.isEmpty abs = false) : svgHrefValue el = abs := by
  unfold svgHrefValue
  rw [h]
  dsimp only
  rw [if_neg (by simp [hne])]

theorem svgHrefValue_of_xlink {el : DomElement} {abs : Str}
    (h : getAttribute el (str "href") = none)
    (hx : getAttribute el (str "xlink:href") = some abs) : svgHrefValue el = abs := by
  unfold svgHrefValue
  rw [h, hx]
  rfl

theorem updateSvgHref_idem (nb : Str) (el : DomElement) :
    updateSvgHref nb (updateSvgHref nb el) = updateSvgHref nb el := by
  by_cases himg : el.tag = str "image"
  · by_cases hhas : (hasAttribute el (str "href")
        || hasAttribute el (str "xlink:href")) = true
    · by_cases hemp : List.isEmpty (svgHrefValue el) = true
      · have h : updateSvgHref nb el = el := updateSvgHref_empty hemp
        rw [h]
        exact h
      · have hemp2 : List.isEmpty (svgHrefValue el) = false := by simpa using hemp
        by_cases hskip : isSkippableUrl (svgHrefValue el) = true
        · have h : updateSvgHref nb el = el := updateSvgHref_skippable hemp2 hskip
          rw [h]
          exact h
        · have hskip2 : isSkippableUrl (svgHrefValue el) = false := by simpa using hskip
          cases hres : resolveUrl (svgHrefValue el) nb with
          | none =>
            have h := updateSvgHref_resolve_none hemp2 hskip2 hres
            rw [h]
            exact h
          | some abs =>
            have h1 := updateSvgHref_resolve_some himg hhas hemp2 hskip2 hres
            obtain ⟨habs_start, _, _, habs_ne⟩ := resolveUrl_spec hres
            have habs_skip := isSkippableUrl_of_abs habs_start
            have habs_emp : List.isEmpty abs = false := by simpa using habs_ne
            rw [h1]
            dsimp only
            by_cases hh : hasAttribute el (str "href") = true
            · rw [if_pos hh]
              by_cases hx : hasAttribute (setAttribute el (str "href") abs)
                  (str "xlink:href") = true
              · rw [if_pos hx]
                have hhref2 : getAttribute
                    (setAttribute (setAttribute el (str "href") abs)
                      (str "xlink:href") abs) (str "href") = some abs := by
                  rw [getAttribute_setAttribute_ne _ _ (by decide)]
                  exact getAttribute_setAttribute_same _ _ _
                have hv2 := svgHrefValue_of_href hhref2 habs_emp
                exact updateSvgHref_skippable (by rw [hv2]; exact habs_emp)
                  (by rw [hv2]; exact habs_skip)
              · rw [if_neg hx]
                have hv2 := svgHrefValue_of_href
                  (getAttribute_setAttribute_same el (str "href") abs) habs_emp
                exact updateSvgHref_skippable (by rw [hv2]; exact habs_emp)
                  (by rw [hv2]; exact habs_skip)
            · rw [if_neg hh]
              by_cases hx : hasAttribute el (str "xlink:href") = true
              · rw [if_pos hx]
                have hhref2 : getAttribute (setAttribute el (str "xlink:href") abs)
                    (str "href") = none := by
                  rw [getAttribute_setAttribute_ne _ _ (by decide)]
                  exact getAttribute_eq_none (by simpa using hh)
                have hv2 := svgHrefValue_of_xlink hhref2
                  (getAttribute_setAttribute_same el (str "xlink:href") abs)
                exact updateSvgHref_skippable (by rw [hv2]; exact habs_emp)
                  (by rw [hv2]; exact habs_skip)
              · rw [if_neg hx]
                rw [Bool.or_eq_true] at hhas
                rcases hhas with hc | hc
                · exact absurd hc hh
                · exact absurd hc hx
    · have h : updateSvgHref nb el = el :=
        updateSvgHref_no_attrs (by simpa using hhas)
      rw [h]
      exact h
  · have h : updateSvgHref nb el = el := updateSvgHref_not_image himg
    rw [h]
    exact h

/-!  ### Element- and document-level idempotence -/

theorem transformElement_img {nb : Str} {el : DomElement}
    (himg : el.tag = str "img") :
    transformElement nb el = updateImgSrcset nb (updateImgSrc nb el) := by
  unfold transformElement
  have t2 : (updateImgSrcset nb (updateImgSrc nb el)).tag = str "img" := by
    rw [tag_updateImgSrcset, tag_updateImgSrc]
    exact himg
  rw [updateSvgHref_not_image (by rw [t2]; decide),
    updateSourceSrcset_not_source (by rw [t2]; decide)]

theorem transformElement_source {nb : Str} {el : DomElement}
    (hs : el.tag = str "source") :
    transformElement nb el = updateSourceSrcset nb el := by
  unfold transformElement
  rw [updateImgSrc_not_img (by rw [hs]; decide),
    updateImgSrcset_not_img (by rw [hs]; decide),
    updateSvgHref_not_image (by rw [hs]; decide)]

theorem transformElement_image {nb : Str} {el : DomElement}
    (hs : el.tag = str "image") :
    transformElement nb el = updateSvgHref nb el := by
  unfold transformElement
  have t2 : (updateSvgHref nb el).tag = str "image" := by
    rw [tag_updateSvgHref]
    exact hs
  rw [updateImgSrc_not_img (by rw [hs]; decide),
    updateImgSrcset_not_img (by rw [hs]; decide),
    updateSourceSrcset_not_source (by rw [t2]; decide)]

theorem transformElement_other {nb : Str} {el : DomElement}
    (h1 : ¬el.tag = str "img") (h2 : ¬el.tag = str "image")
    (h3 : ¬el.tag = str "source") :
    transformElement nb el = el := by
  unfold transformElement
  rw [updateImgSrc_not_img h1, updateImgSrcset_not_img h1,
    updateSvgHref_not_image h2, updateSourceSrcset_not_source h3]

theorem transformElement_idem (nb : Str) (el : DomElement) (hnb : baseOk nb)
    (hv : (el.tag = str "img" ∨ el.tag = str "source") →
      ∀ v, getAttribute el (str "srcset") = some v → commaFree v) :
    transformElement nb (transformElement nb el) = transformElement nb el := by
  by_cases himg : el.tag = str "img"
  · rw [transformElement_img himg]
    have hytag : (updateImgSrcset nb (updateImgSrc nb el)).tag = str "img" := by
      rw [tag_updateImgSrcset, tag_updateImgSrc]
      exact himg
    rw [transformElement_img hytag]
    have hstab : updateImgSrc nb (updateImgSrcset nb (updateImgSrc nb el))
        = updateImgSrcset nb (updateImgSrc nb el) := by
      apply updateImgSrc_stable nb el
      · rw [tag_updateImgSrcset, tag_updateImgSrc]
      · rw [src_updateImgSrcset]
    rw [hstab]
    apply updateImgSrcset_idem nb (updateImgSrc nb el) hnb
    intro v hvga
    rw [srcset_updateImgSrc] at hvga
    exact hv (Or.inl himg) v hvga
  · by_cases hsrcT : el.tag = str "source"
    · rw [transformElement_source hsrcT]
      have hytag : (updateSourceSrcset nb el).tag = str "source" := by
        rw [tag_updateSourceSrcset]
        exact hsrcT
      rw [transformElement_source hytag]
      exact updateSourceSrcset_idem nb el hnb (hv (Or.inr hsrcT))
    · by_cases himage : el.tag = str "image"
      · rw [transformElement_image himage]
        have hytag : (updateSvgHref nb el).tag = str "image" := by
          rw [tag_updateSvgHref]
          exact himage
        rw [transformElement_image hytag]
        exact updateSvgHref_idem nb el
      · have h : transformElement nb el = el :=
          transformElement_other himg himage hsrcT
        rw [h]
        exact h

set_option maxHeartbeats 1000000 in
/-- C6 (amended).  `transformImagesToAbsolute` is idempotent on every
document whose `img`/`source` elements carry only comma-free (that is,
single-candidate) `srcset` values, provided the base URL normalises (the
source throws on an unparsable base) and the normalised base contains no
comma or whitespace.  The counterexample above shows the comma restriction
is necessary: multi-candidate `srcset` lists gain one space per pass. -/
theorem transformImagesToAbsolute_idempotent_amended
    (doc doc₁ : Doc) (baseUrl nb : Str)
    (hnb : normalizedBase baseUrl = some nb)
    (hbase : baseOk nb)
    (hsrcset : ∀ el ∈ doc, (el.tag = str "img" ∨ el.tag = str "source") →
      ∀ v, getAttribute el (str "srcset") = some v → commaFree v)
    (h1 : transformImagesToAbsolute doc baseUrl = some doc₁) :
    transformImagesToAbsolute doc₁ baseUrl = some doc₁ := by
  have h2 : transformImagesToAbsolute doc baseUrl
      = some (doc.map (transformElement nb)) := by
    unfold transformImagesToAbsolute
    rw [hnb]
  rw [h2, Option.some.injEq] at h1
  subst h1
  have h3 : transformImagesToAbsolute (doc.map (transformElement nb)) baseUrl
      = some ((doc.map (transformElement nb)).map (transformElement nb)) := by
    unfold transformImagesToAbsolute
    rw [hnb]
  rw [h3, Option.some.injEq, List.map_map]
  apply List.map_congr_left
  intro el hel
  show transformElement nb (transformElement nb el) = transformElement nb el
  exact transformElement_idem nb el hbase (hsrcset el hel)

/-- A single-candidate document for the amended idempotence theorem. -/
def c6AmendedDoc : Doc :=
  [{ tag := str "img",
     attrs := [(str "src", str "a.png"), (str "srcset", str "a.png 2x")] }]

/-- The image transform of `c6AmendedDoc` against base `http://h/`. -/
def c6AmendedDocOut : Doc :=
  [{ tag := str "img",
     attrs := [(str "src", str "http://h/a.png"),
               (str "srcset", str "http://h/a.png 2x")] }]

/-- Witness for the amended C6 theorem at a concrete single-candidate
document. -/
theorem transformImagesToAbsolute_idempotent_amended_witness :
    transformImagesToAbsolute c6AmendedDocOut (str "http://h/")
      = some c6AmendedDocOut :=
  transformImagesToAbsolute_idempotent_amended c6AmendedDoc c6AmendedDocOut
    (str "http://h/") (str "http://h/") (by decide)
    (by show ∀ c ∈ str "http://h/", c ≠ ',' ∧ isWs c = false; decide)
    (by
      intro el hel htag v hv
      rcases List.mem_singleton.mp hel with rfl
      have hg : getAttribute
          { tag := str "img",
            attrs := [(str "src", str "a.png"), (str "srcset", str "a.png 2x")] }
          (str "srcset") = some (str "a.png 2x") := by decide
      rw [hg, Option.some.injEq] at hv
      rw [← hv]
      show ∀ c ∈ str "a.png 2x", c ≠ ','
      decide)
    (by decide)
